import Mathlib

/-!
Verification development for the company-health source reconciliation engine.

The definitions below are shallow embeddings of the TypeScript source:
  - field normalization (src/backend/src/services/data-processor/utils.ts and
    src/backend/src/data/index.ts: normalizeJob, detectRemoteType, extractSeniority),
  - content fingerprinting (src/backend/src/utils/index.ts: hashContent, a SHA-256
    hex digest of the UTF-8 bytes of the content, with undefined coerced to ""),
  - the reconciliation cycle in its two main persisted revisions:
    JobProcessingService.syncAshbyJobs (the services revision) and
    DataProcessor.upsertAshbyJobs (the revision that soft-deletes via removedAt),
  - the pipeline orchestrator AshbyELTJob.run.

JavaScript strings are modeled as Lean String (ASCII-faithful), timestamps as Nat,
the Prisma persistence boundary as explicit lists of rows with the standard
semantics of findMany / createMany / update / updateMany / deleteMany, and
database-generated row ids (crypto.randomUUID or cuid defaults) as sequentially
assigned fresh Nat ids threaded through as a nextId parameter.
-/

namespace CompanyHealth

/-- Model of JavaScript String.prototype.toLowerCase, character-wise lowering
(identical to the JS behavior on the ASCII range the normalizer patterns use). -/
def jsLower (s : String) : String := String.mk (s.toList.map Char.toLower)

/-- Model of JavaScript String.prototype.trim on the ASCII range: strips
leading and trailing whitespace characters. -/
def jsTrim (s : String) : String :=
  String.mk ((((s.toList.dropWhile Char.isWhitespace).reverse).dropWhile
    Char.isWhitespace).reverse)

/-- Whether the first character list starts the second one. -/
def leadsWith : List Char → List Char → Bool
  | [], _ => true
  | _ :: _, [] => false
  | a :: as, b :: bs => a == b && leadsWith as bs

/-- Whether the needle occurs contiguously inside the haystack list. -/
def occursIn (needle : List Char) : List Char → Bool
  | [] => needle.isEmpty
  | b :: bs => leadsWith needle (b :: bs) || occursIn needle bs

/-- Whether needle occurs as a contiguous substring of hay. -/
def containsSub (hay needle : String) : Bool := occursIn needle.toList hay.toList

/-- Model of a case-insensitive regex alternation of literal words tested against
an already-lowercased text: true iff some alternative occurs as a substring. -/
def matchesAny (alts : List String) (text : String) : Bool :=
  alts.any (fun a => containsSub text a)

/-- The remoteType enum: remote | hybrid | onsite. -/
inductive RemoteType where
  | remote
  | hybrid
  | onsite
deriving DecidableEq, Repr

/-- The seniorityLevel enum: intern | entry | mid | senior | staff | executive. -/
inductive SeniorityLevel where
  | intern
  | entry
  | mid
  | senior
  | staff
  | executive
deriving DecidableEq, Repr

/-- Embedding of detectRemoteType: scans the lowercase space-joined concatenation
of location and title (skipping absent or empty fields, as the JS
filter(Boolean) does) for remote vocabulary, then hybrid, else onsite. -/
def detectRemoteType (location title : Option String) : RemoteType :=
  let text := jsLower (String.intercalate " "
    (([location, title].filterMap id).filter (fun s => s ≠ "")))
  if matchesAny ["remote", "anywhere", "work from home"] text then .remote
  else if matchesAny ["hybrid"] text then .hybrid
  else .onsite

/-- Embedding of extractSeniority: absent or empty title (JS falsy check) gives
mid; otherwise the lowercased title is tested against the keyword patterns in
strict order intern, entry, senior, staff, executive, first match wins, with
mid as the default. The regex alternative sr\.? is matchable by the bare
substring sr, so it is modeled by the literal alternative sr. -/
def extractSeniority (title : Option String) : SeniorityLevel :=
  match title with
  | none => .mid
  | some t =>
    if t = "" then .mid
    else
      let tl := jsLower t
      if matchesAny ["intern", "co-op"] tl then .intern
      else if matchesAny ["junior", "entry", "associate", "level 1"] tl then .entry
      else if matchesAny ["senior", "sr", "lead", "level 4"] tl then .senior
      else if matchesAny ["staff", "principal", "level 5"] tl then .staff
      else if matchesAny ["director", "vp", "head of", "chief"] tl then .executive
      else .mid

/-- The pair of normalized fields derived from title and location. -/
structure NormalizedJobFields where
  remoteType : RemoteType
  seniorityLevel : SeniorityLevel
deriving DecidableEq, Repr

/-- Embedding of normalizeJob: derives both normalized fields. -/
def normalizeJob (title location : Option String) : NormalizedJobFields :=
  { remoteType := detectRemoteType location title
    seniorityLevel := extractSeniority title }

/-- Modelled from the spec: the seniority priority table as an ordered list of
keyword sets, used to state the first-match-wins property of claim C8. -/
def seniorityPriorityTable : List (List String × SeniorityLevel) :=
  [ (["intern", "co-op"], .intern)
  , (["junior", "entry", "associate", "level 1"], .entry)
  , (["senior", "sr", "lead", "level 4"], .senior)
  , (["staff", "principal", "level 5"], .staff)
  , (["director", "vp", "head of", "chief"], .executive) ]

/-- Modelled from the spec: first-match-wins scan of the ordered priority table
over the lowercased title, defaulting to mid for no match or an absent or
empty title. -/
def senioritySpec (title : Option String) : SeniorityLevel :=
  match title with
  | none => .mid
  | some t =>
    if t = "" then .mid
    else
      match seniorityPriorityTable.find? (fun p => matchesAny p.1 (jsLower t)) with
      | some p => p.2
      | none => .mid

/-- Truncation of a natural number to an unsigned 32-bit word. -/
def w32 (n : Nat) : Nat := n % 4294967296

/-- Right rotation of a 32-bit word by n places, in arithmetic form. -/
def rotr32 (n x : Nat) : Nat := x / 2 ^ n + x % 2 ^ n * 2 ^ (32 - n)

/-- Bitwise complement of a 32-bit word. -/
def not32 (x : Nat) : Nat := 4294967295 - x

/-- The SHA-256 choose function. -/
def chFn (x y z : Nat) : Nat := (x &&& y) ^^^ (not32 x &&& z)

/-- The SHA-256 majority function. -/
def majFn (x y z : Nat) : Nat := (x &&& y) ^^^ (x &&& z) ^^^ (y &&& z)

/-- The SHA-256 big sigma 0 function. -/
def bigSigma0 (x : Nat) : Nat := rotr32 2 x ^^^ rotr32 13 x ^^^ rotr32 22 x

/-- The SHA-256 big sigma 1 function. -/
def bigSigma1 (x : Nat) : Nat := rotr32 6 x ^^^ rotr32 11 x ^^^ rotr32 25 x

/-- The SHA-256 small sigma 0 function. -/
def smallSigma0 (x : Nat) : Nat := rotr32 7 x ^^^ rotr32 18 x ^^^ x / 2 ^ 3

/-- The SHA-256 small sigma 1 function. -/
def smallSigma1 (x : Nat) : Nat := rotr32 17 x ^^^ rotr32 19 x ^^^ x / 2 ^ 10

/-- The 64 SHA-256 round constants, as decimal word values. -/
def sha256K : List Nat :=
  [1116352408, 1899447441, 3049323471, 3921009573,
   961987163, 1508970993, 2453635748, 2870763221,
   3624381080, 310598401, 607225278, 1426881987,
   1925078388, 2162078206, 2614888103, 3248222580,
   3835390401, 4022224774, 264347078, 604807628,
   770255983, 1249150122, 1555081692, 1996064986,
   2554220882, 2821834349, 2952996808, 3210313671,
   3336571891, 3584528711, 113926993, 338241895,
   666307205, 773529912, 1294757372, 1396182291,
   1695183700, 1986661051, 2177026350, 2456956037,
   2730485921, 2820302411, 3259730800, 3345764771,
   3516065817, 3600352804, 4094571909, 275423344,
   430227734, 506948616, 659060556, 883997877,
   958139571, 1322822218, 1537002063, 1747873779,
   1955562222, 2024104815, 2227730452, 2361852424,
   2428436474, 2756734187, 3204031479, 3329325298]

/-- The SHA-256 working state of eight 32-bit words. -/
structure Sha256State where
  a : Nat
  b : Nat
  c : Nat
  d : Nat
  e : Nat
  f : Nat
  g : Nat
  h : Nat
deriving DecidableEq, Repr

/-- The SHA-256 initial hash value, as decimal word values. -/
def sha256Init : Sha256State :=
  ⟨1779033703, 3144134277, 1013904242, 2773480762,
   1359893119, 2600822924, 528734635, 1541459225⟩

/-- One SHA-256 compression round, consuming a round constant and schedule word. -/
def sha256Round (st : Sha256State) (kw : Nat × Nat) : Sha256State :=
  let t1 := w32 (st.h + bigSigma1 st.e + chFn st.e st.f st.g + kw.1 + kw.2)
  let t2 := w32 (bigSigma0 st.a + majFn st.a st.b st.c)
  ⟨w32 (t1 + t2), st.a, st.b, st.c, w32 (st.d + t1), st.e, st.f, st.g⟩

/-- The sixteen 32-bit big-endian words of one 64-byte block. -/
def blockWords (blk : List Nat) : List Nat :=
  (List.range 16).map (fun i =>
    blk.getD (4 * i) 0 * 16777216 + blk.getD (4 * i + 1) 0 * 65536 +
      blk.getD (4 * i + 2) 0 * 256 + blk.getD (4 * i + 3) 0)

/-- Extension of the sixteen block words to the 64-word message schedule. -/
def extendSchedule (ws : List Nat) : List Nat :=
  (List.range 48).foldl (fun acc i =>
    acc ++ [w32 (smallSigma1 (acc.getD (i + 14) 0) + acc.getD (i + 9) 0 +
      smallSigma0 (acc.getD (i + 1) 0) + acc.getD i 0)]) ws

/-- Compression of one 64-byte block into the running state. -/
def sha256Block (st : Sha256State) (blk : List Nat) : Sha256State :=
  let ws := extendSchedule (blockWords blk)
  let fin := (sha256K.zip ws).foldl sha256Round st
  ⟨w32 (st.a + fin.a), w32 (st.b + fin.b), w32 (st.c + fin.c), w32 (st.d + fin.d),
   w32 (st.e + fin.e), w32 (st.f + fin.f), w32 (st.g + fin.g), w32 (st.h + fin.h)⟩

/-- Big-endian byte list of a natural number, w bytes wide. -/
def beBytes (w n : Nat) : List Nat :=
  (List.range w).map (fun i => n / 2 ^ (8 * (w - 1 - i)) % 256)

/-- SHA-256 message padding: append 0x80, zero bytes to 56 mod 64, then the
64-bit big-endian bit length. -/
def sha256Pad (msg : List Nat) : List Nat :=
  let zeros := (64 + 56 - (msg.length + 1) % 64) % 64
  msg ++ [128] ++ List.replicate zeros 0 ++ beBytes 8 (msg.length * 8)

/-- Splitting a byte list into 64-byte blocks, with fuel bounding recursion
depth; the fuel is instantiated with the list length, which always suffices
because every step consumes at least one element of a nonempty list. -/
def toBlocksAux : Nat → List Nat → List (List Nat)
  | 0, _ => []
  | _ + 1, [] => []
  | fuel + 1, l => l.take 64 :: toBlocksAux fuel (l.drop 64)

/-- Splitting a byte list into 64-byte blocks. -/
def toBlocks (l : List Nat) : List (List Nat) :=
  toBlocksAux l.length l

/-- Hexadecimal character for a value below 16. -/
def hexChar (n : Nat) : Char :=
  "0123456789abcdef".toList.getD n '0'

/-- Lowercase hexadecimal rendering of one 32-bit word, always 8 characters. -/
def wordHex (x : Nat) : List Char :=
  [hexChar (x / 2 ^ 28 % 16), hexChar (x / 2 ^ 24 % 16), hexChar (x / 2 ^ 20 % 16),
   hexChar (x / 2 ^ 16 % 16), hexChar (x / 2 ^ 12 % 16), hexChar (x / 2 ^ 8 % 16),
   hexChar (x / 2 ^ 4 % 16), hexChar (x % 16)]

/-- Lowercase hexadecimal digest string of a final SHA-256 state. -/
def digestHex (st : Sha256State) : String :=
  String.mk (wordHex st.a ++ wordHex st.b ++ wordHex st.c ++ wordHex st.d ++
    wordHex st.e ++ wordHex st.f ++ wordHex st.g ++ wordHex st.h)

/-- SHA-256 of a byte list, rendered as a lowercase hex string, matching the
node createHash("sha256").update(content).digest("hex") call. -/
def sha256Hex (msg : List Nat) : String :=
  digestHex ((toBlocks (sha256Pad msg)).foldl sha256Block sha256Init)

/-- UTF-8 encoding of one Unicode code point as a byte list. -/
def utf8EncodeNat (n : Nat) : List Nat :=
  if n < 128 then [n]
  else if n < 2048 then [192 + n / 64, 128 + n % 64]
  else if n < 65536 then [224 + n / 4096, 128 + n / 64 % 64, 128 + n % 64]
  else [240 + n / 262144, 128 + n / 4096 % 64, 128 + n / 64 % 64, 128 + n % 64]

/-- The UTF-8 bytes of a string. -/
def utf8Bytes (s : String) : List Nat :=
  (s.toList.map (fun c => utf8EncodeNat c.toNat)).flatten

/-- Embedding of hashContent from src/backend/src/utils/index.ts: SHA-256 hex
digest of the UTF-8 bytes of the content, treating undefined as the empty
string. The identical function appears as hashDescription in
src/src/jobs/ashby-elt.ts and as a local hashContent in the DataProcessor
revisions. -/
def hashContent (content : Option String) : String :=
  sha256Hex (utf8Bytes (content.getD ""))

/-- The incoming Ashby provider record, restricted to the fields the
reconciliation logic reads: external id, title, description variants and
location. -/
structure AshbyJob where
  id : String
  title : Option String
  descriptionPlain : Option String
  descriptionHtml : Option String
  location : Option String
deriving DecidableEq, Repr

/-- A persisted job posting row, restricted to the fields the reconciliation
logic reads or writes: identity, content, fingerprint and lifecycle
timestamps. -/
structure JobPosting where
  id : Nat
  companyId : String
  source : String
  externalId : String
  title : String
  description : Option String
  location : Option String
  remoteType : RemoteType
  seniorityLevel : SeniorityLevel
  descriptionHash : String
  firstSeenAt : Nat
  lastSeenAt : Nat
  removedAt : Option Nat
deriving DecidableEq, Repr

/-- The projection selected by the existing-row Prisma query:
select id, externalId, descriptionHash. -/
structure JobSummary where
  id : Nat
  externalId : String
  descriptionHash : String
deriving DecidableEq, Repr

/-- The three counts returned by one reconciliation cycle. -/
structure SyncCounts where
  jobsNew : Nat
  jobsUpdated : Nat
  jobsRemoved : Nat
deriving DecidableEq, Repr

/-- The mutable content fields assembled per incoming job (the jobData object),
restricted to the modeled columns; every revision writes these plus
lastSeenAt on update. -/
structure JobData where
  title : String
  description : Option String
  location : Option String
  remoteType : RemoteType
  seniorityLevel : SeniorityLevel
  descriptionHash : String
  lastSeenAt : Nat
deriving DecidableEq, Repr

/-- Embedding of the per-job data preparation: description prefers the plain
variant over the HTML variant (JS ??), the title is trimmed with empty
default, normalized fields come from normalizeJob, and the fingerprint is
hashContent of the chosen description. -/
def mkJobData (j : AshbyJob) (now : Nat) : JobData :=
  let description := j.descriptionPlain.or j.descriptionHtml
  { title := (j.title.map jsTrim).getD ""
    description := description
    location := j.location.map jsTrim
    remoteType := (normalizeJob j.title j.location).remoteType
    seniorityLevel := (normalizeJob j.title j.location).seniorityLevel
    descriptionHash := hashContent description
    lastSeenAt := now }

/-- A freshly created row: identity plus jobData content, with
firstSeenAt = lastSeenAt = now and removedAt null. Database-generated row ids
are modeled by the supplied fresh id. -/
def mkCreateRow (companyId : String) (j : AshbyJob) (now rowId : Nat) : JobPosting :=
  let d := mkJobData j now
  { id := rowId
    companyId := companyId
    source := "ashby"
    externalId := j.id
    title := d.title
    description := d.description
    location := d.location
    remoteType := d.remoteType
    seniorityLevel := d.seniorityLevel
    descriptionHash := d.descriptionHash
    firstSeenAt := now
    lastSeenAt := now
    removedAt := none }

/-- The Prisma findMany for existing rows of the company and source whose
external id is in the incoming id list, with the three-field select. -/
def fetchExisting (db : List JobPosting) (companyId : String) (ids : List String) :
    List JobSummary :=
  (db.filter (fun r =>
    r.companyId == companyId && r.source == "ashby" && ids.contains r.externalId)).map
    (fun r => ⟨r.id, r.externalId, r.descriptionHash⟩)

/-- Lookup in the JS Map built from (externalId, row) entries: the last entry
for a key wins. -/
def mapGet (entries : List JobSummary) (k : String) : Option JobSummary :=
  (entries.filter (fun e => e.externalId == k)).getLast?

/-- Application of one per-row Prisma update: writes the jobData content
columns plus lastSeenAt, and clears removedAt to null; identity and
firstSeenAt are not written. -/
def applyJobUpdate (d : JobData) (r : JobPosting) : JobPosting :=
  { r with
    title := d.title
    description := d.description
    location := d.location
    remoteType := d.remoteType
    seniorityLevel := d.seniorityLevel
    descriptionHash := d.descriptionHash
    lastSeenAt := d.lastSeenAt
    removedAt := none }

/-- Sequential execution of the per-row update loop: each op updates the rows
whose internal id equals its target id. -/
def applyUpdates (ops : List (Nat × JobData)) (db : List JobPosting) : List JobPosting :=
  ops.foldl (fun st op =>
    st.map (fun r => if r.id == op.1 then applyJobUpdate op.2 r else r)) db

/-- Row-wise view of the sequential update loop: the sequence of update ops
folded over a single row (each op rewrites the row when the target id
matches). -/
def applyUpdatesRow (ops : List (Nat × JobData)) (r : JobPosting) : JobPosting :=
  ops.foldl (fun acc op => if acc.id == op.1 then applyJobUpdate op.2 acc else acc) r

/-- The planning loop of JobProcessingService.syncAshbyJobs
(src/unnamed/part_011): for each incoming job, an existing row (via the map)
yields an update op targeting that row id, otherwise a create row with a
fresh id; an update op is always emitted for a matched job, with no change
flag computed. -/
def syncPlan (lookup : String → Option JobSummary) (companyId : String) (now : Nat) :
    List AshbyJob → Nat → List JobPosting × List (Nat × JobData)
  | [], _ => ([], [])
  | j :: rest, nid =>
    match lookup j.id with
    | some ex =>
      let (cs, us) := syncPlan lookup companyId now rest nid
      (cs, (ex.id, mkJobData j now) :: us)
    | none =>
      let (cs, us) := syncPlan lookup companyId now rest (nid + 1)
      (mkCreateRow companyId j now nid :: cs, us)

/-- Embedding of JobProcessingService.syncAshbyJobs (src/unnamed/part_011):
empty incoming list returns early with zero counts; otherwise fetch existing
rows restricted to the incoming external ids, compute the delete candidates
(fetched rows whose external id is truthy and not among the incoming ids),
plan creates and updates, execute createMany then the per-row updates then
deleteMany, and return the counts createOps.length, updateOps.length and
deletedByExternalId.length. -/
def syncAshbyJobs (db : List JobPosting) (companyId jobBoardName : String)
    (jobs : List AshbyJob) (now nextId : Nat) : List JobPosting × SyncCounts :=
  if jobs.isEmpty then (db, ⟨0, 0, 0⟩) else
  let incomingExternalIds := jobs.map (·.id)
  let existingJobPostings := fetchExisting db companyId incomingExternalIds
  let deletedByExternalId := existingJobPostings.filter
    (fun j => j.externalId != "" && !incomingExternalIds.contains j.externalId)
  let plan := syncPlan (mapGet existingJobPostings) companyId now jobs nextId
  let db1 := db ++ plan.1
  let db2 := applyUpdates plan.2 db1
  let deletedIds := deletedByExternalId.map (·.id)
  let db3 := db2.filter (fun r => !deletedIds.contains r.id)
  (db3, ⟨plan.1.length, plan.2.length, deletedByExternalId.length⟩)

/-- An update entry of DataProcessor.upsertAshbyJobs, carrying the changed
flag computed from the stored versus freshly computed fingerprint. -/
structure UpdateOp where
  existingId : Nat
  data : JobData
  changed : Bool
deriving DecidableEq, Repr

/-- The planning loop of DataProcessor.upsertAshbyJobs (src/unnamed/part_002):
like syncPlan, but each update entry carries changed, true iff the stored
descriptionHash differs from the freshly computed one. -/
def upsertPlan (lookup : String → Option JobSummary) (companyId : String) (now : Nat) :
    List AshbyJob → Nat → List JobPosting × List UpdateOp
  | [], _ => ([], [])
  | j :: rest, nid =>
    let d := mkJobData j now
    match lookup j.id with
    | some ex =>
      let (cs, us) := upsertPlan lookup companyId now rest nid
      (cs, ⟨ex.id, d, ex.descriptionHash != d.descriptionHash⟩ :: us)
    | none =>
      let (cs, us) := upsertPlan lookup companyId now rest (nid + 1)
      (mkCreateRow companyId j now nid :: cs, us)

/-- The updateMany filter of the soft-delete step in
DataProcessor.upsertAshbyJobs: rows of this company and source that are
still active and whose external id was not seen in this scrape. -/
def removalPred (companyId : String) (seen : List String) (r : JobPosting) : Bool :=
  r.companyId == companyId && r.source == "ashby" && r.removedAt == none &&
    !seen.contains r.externalId

/-- The row-wise effect of the soft-delete updateMany: rows matching the
filter get removedAt set to now, all other rows are untouched. -/
def markRemoved (companyId : String) (seen : List String) (now : Nat) (r : JobPosting) :
    JobPosting :=
  if removalPred companyId seen r then { r with removedAt := some now } else r

/-- Embedding of DataProcessor.upsertAshbyJobs (src/unnamed/part_002): empty
incoming list returns early with zero counts; otherwise fetch existing rows
restricted to the incoming external ids, plan creates and updates with
changed flags, execute the per-row updates then createMany inside one
transaction, then soft-delete via updateMany setting removedAt = now on
active rows of the company and source not seen in this scrape, and return
the counts createOps.length, the number of changed update entries, and the
updateMany matched-row count. -/
def upsertAshbyJobs (db : List JobPosting) (companyId jobBoardName : String)
    (jobs : List AshbyJob) (now nextId : Nat) : List JobPosting × SyncCounts :=
  if jobs.isEmpty then (db, ⟨0, 0, 0⟩) else
  let incomingExternalIds := jobs.map (·.id)
  let existingRows := fetchExisting db companyId incomingExternalIds
  let plan := upsertPlan (mapGet existingRows) companyId now jobs nextId
  let jobsUpdated := (plan.2.filter (·.changed)).length
  let seenExternalIds := jobs.map (·.id)
  let db1 := applyUpdates (plan.2.map (fun o => (o.existingId, o.data))) db
  let db2 := db1 ++ plan.1
  let removedCount := (db2.filter (removalPred companyId seenExternalIds)).length
  let db3 := db2.map (markRemoved companyId seenExternalIds now)
  (db3, ⟨plan.1.length, jobsUpdated, removedCount⟩)

/-- The plan computed by a nonempty-incoming syncAshbyJobs cycle, named for
use in its normal form. -/
def syncStage (db : List JobPosting) (cid : String) (jobs : List AshbyJob) (now nid : Nat) :
    List JobPosting × List (Nat × JobData) :=
  syncPlan (mapGet (fetchExisting db cid (jobs.map (fun j => j.id)))) cid now jobs nid

/-- The plan computed by a nonempty-incoming upsertAshbyJobs cycle, named for
use in its normal form. -/
def upsertStage (db : List JobPosting) (cid : String) (jobs : List AshbyJob) (now nid : Nat) :
    List JobPosting × List UpdateOp :=
  upsertPlan (mapGet (fetchExisting db cid (jobs.map (fun j => j.id)))) cid now jobs nid

/-- The table of a nonempty-incoming upsertAshbyJobs cycle after the update
loop and the batched insert, before the soft-delete updateMany. -/
def upsertWritten (db : List JobPosting) (cid : String) (jobs : List AshbyJob)
    (now nid : Nat) : List JobPosting :=
  db.map (applyUpdatesRow
    ((upsertStage db cid jobs now nid).2.map (fun o => (o.existingId, o.data)))) ++
    (upsertStage db cid jobs now nid).1

/-- A company row, restricted to the fields AshbyELTJob.run reads. -/
structure Company where
  id : String
  slug : String
  name : String
  ashbyBoardName : Option String
deriving DecidableEq, Repr

/-- One scrapingRun audit row as created by the pipeline. -/
structure ScrapingRun where
  companyId : String
  companySlug : String
  source : String
  status : String
  jobsFound : Nat
  jobsNew : Nat
  jobsUpdated : Nat
  jobsRemoved : Nat
  startedAt : Nat
  completedAt : Nat
deriving DecidableEq, Repr

/-- The persisted database state the pipeline touches. -/
structure DbState where
  companies : List Company
  jobPostings : List JobPosting
  scrapingRuns : List ScrapingRun
deriving DecidableEq, Repr

/-- The result object of one Ashby pipeline run. -/
structure AshbyELTPipelineResult where
  jobsFound : Nat
  jobsNew : Nat
  jobsUpdated : Nat
  jobsRemoved : Nat
deriving DecidableEq, Repr

/-- The Prisma findUnique on company by slug. -/
def findCompanyBySlug (cs : List Company) (slug : String) : Option Company :=
  cs.find? (fun c => c.slug == slug)

/-- Embedding of AshbyELTJob.run (src/unnamed/part_014): validates the slug
and the company (throwing, modeled as Except.error with the database
unchanged, when the slug is falsy, the company is missing, or it has no
Ashby board name), takes the scraper response jobs (injected here as the
scrapedJobs argument since the fetch is an external collaborator), returns
early with zero counts and no scrapingRun row when no jobs were found,
otherwise stores raw blobs (external I/O with no database effect), runs
syncAshbyJobs, and appends a single scrapingRun row with status completed
and the cycle counts. -/
def ashbyELTRun (db : DbState) (companySlug : String) (scrapedJobs : List AshbyJob)
    (startTime now nextId : Nat) : DbState × Except String AshbyELTPipelineResult :=
  if companySlug = "" then (db, .error "Company slug is required") else
  match findCompanyBySlug db.companies companySlug with
  | none => (db, .error ("Company " ++ companySlug ++ " not found"))
  | some company =>
    match company.ashbyBoardName with
    | none =>
      (db, .error ("Company " ++ companySlug ++ " does not have an Ashby board name"))
    | some jobBoardName =>
      let jobsFound := scrapedJobs.length
      if scrapedJobs.isEmpty then
        (db, .ok ⟨jobsFound, 0, 0, 0⟩)
      else
        let synced := syncAshbyJobs db.jobPostings company.id jobBoardName scrapedJobs now nextId
        let runRow : ScrapingRun :=
          ⟨company.id, companySlug, "ashby", "completed", jobsFound,
            synced.2.jobsNew, synced.2.jobsUpdated, synced.2.jobsRemoved, startTime, now⟩
        ({ db with jobPostings := synced.1, scrapingRuns := db.scrapingRuns ++ [runRow] },
          .ok ⟨jobsFound, synced.2.jobsNew, synced.2.jobsUpdated, synced.2.jobsRemoved⟩)

/-- Two rows agree on the uniqueness key (companyId, source, externalId). -/
def sameKey (r s : JobPosting) : Prop :=
  r.companyId = s.companyId ∧ r.source = s.source ∧ r.externalId = s.externalId

instance (r s : JobPosting) : Decidable (sameKey r s) := by
  unfold sameKey; infer_instance

/-- No two distinct rows of the table share the uniqueness key. -/
def keyUnique (db : List JobPosting) : Prop :=
  db.Pairwise (fun r s => ¬ sameKey r s)

/-- Internal row ids are pairwise distinct. -/
def idsNodup (db : List JobPosting) : Prop :=
  (db.map (fun r => r.id)).Nodup

/-- Every internal row id is below the fresh-id seed. -/
def idsBelow (db : List JobPosting) (n : Nat) : Prop :=
  ∀ r ∈ db, r.id < n

/-- The number of surviving incoming records whose freshly computed
fingerprint differs from the stored one, stated the way claim C5 counts
changed rows (the lookup mirrors the planning lookup of the cycle). -/
def survivorChangedCount (db : List JobPosting) (companyId : String)
    (jobs : List AshbyJob) (now : Nat) : Nat :=
  jobs.countP (fun j =>
    match mapGet (fetchExisting db companyId (jobs.map (·.id))) j.id with
    | some ex => ex.descriptionHash != (mkJobData j now).descriptionHash
    | none => false)

/-- Whether an incoming job matches some existing row of the company and
source by external id. -/
def matchedExisting (db : List JobPosting) (companyId : String) (j : AshbyJob) : Bool :=
  db.any (fun r =>
    r.companyId == companyId && r.source == "ashby" && r.externalId == j.id)

/-- A concrete active persisted row used in concrete scenarios. -/
def exampleRowA : JobPosting :=
  { id := 1, companyId := "c1", source := "ashby", externalId := "ext-a",
    title := "Engineer", description := some "d", location := none,
    remoteType := .onsite, seniorityLevel := .mid, descriptionHash := "h",
    firstSeenAt := 0, lastSeenAt := 0, removedAt := none }

/-- A concrete active persisted row whose stored fingerprint equals the
fingerprint of the content "d", as a row written by an earlier cycle would
have it. -/
def exampleRowHashed : JobPosting :=
  { id := 1, companyId := "c1", source := "ashby", externalId := "ext-a",
    title := "Engineer", description := some "d", location := none,
    remoteType := .onsite, seniorityLevel := .mid,
    descriptionHash := hashContent (some "d"),
    firstSeenAt := 0, lastSeenAt := 0, removedAt := none }

/-- A concrete incoming record with external id ext-a and content "d". -/
def exampleJobA : AshbyJob :=
  { id := "ext-a", title := some "Engineer", descriptionPlain := some "d",
    descriptionHtml := none, location := none }

/-- A concrete incoming record with external id ext-b and content "d". -/
def exampleJobB : AshbyJob :=
  { id := "ext-b", title := some "Engineer", descriptionPlain := some "d",
    descriptionHtml := none, location := none }

/-- A concrete company with an Ashby board configured. -/
def exampleCompany : Company :=
  { id := "c1", slug := "acme", name := "Acme", ashbyBoardName := some "acme-board" }

/-- A concrete database holding the company, no postings and no runs. -/
def exampleDb : DbState :=
  { companies := [exampleCompany], jobPostings := [], scrapingRuns := [] }

/-- Helper: the hex rendering of one word always has eight characters. -/
theorem wordHex_length (x : Nat) : (wordHex x).length = 8 := rfl

/-- Helper: a digest string always has 64 characters, whatever the final
state. -/
theorem digestHex_length (st : Sha256State) : (digestHex st).length = 64 := by
  simp [digestHex, wordHex, String.length]

/-- C9: the content fingerprint is total and deterministic: every digest has
the fixed length of 64 hex characters, undefined content hashes exactly like
the empty string, and equal inputs always yield equal digests. -/
theorem c9_fingerprint_total :
    (∀ c : Option String, (hashContent c).length = 64) ∧
    hashContent none = hashContent (some "") ∧
    (∀ a b : Option String, a = b → hashContent a = hashContent b) := by
  refine ⟨fun c => ?_, rfl, fun a b h => by rw [h]⟩
  simp [hashContent, sha256Hex, digestHex_length]

/-- Witness for C9 at the concrete content "x". -/
theorem c9_fingerprint_total_witness :
    (hashContent (some "x")).length = 64 ∧
    hashContent (some "x") = hashContent (some "x") :=
  ⟨c9_fingerprint_total.1 (some "x"),
   c9_fingerprint_total.2.2 (some "x") (some "x") rfl⟩

/-- C8: seniority derivation over the lowercased title follows the fixed
first-match-wins priority order intern, entry, senior, staff, executive with
default mid: extractSeniority agrees with the ordered-table scan on every
input, Senior Staff Engineer resolves to senior, an empty or absent title to
mid, and Backend Intern to intern. -/
theorem c8_seniority_priority :
    (∀ t : Option String, extractSeniority t = senioritySpec t) ∧
    extractSeniority (some "Senior Staff Engineer") = .senior ∧
    extractSeniority (some "") = .mid ∧
    extractSeniority none = .mid ∧
    extractSeniority (some "Backend Intern") = .intern := by
  refine ⟨fun t => ?_, by decide, by decide, rfl, by decide⟩
  cases t with
  | none => rfl
  | some s =>
    by_cases h0 : s = ""
    · simp [extractSeniority, senioritySpec, h0]
    · simp only [extractSeniority, senioritySpec, seniorityPriorityTable, h0, if_false]
      by_cases h1 : matchesAny ["intern", "co-op"] (jsLower s) = true <;>
        by_cases h2 : matchesAny ["junior", "entry", "associate", "level 1"] (jsLower s) = true <;>
        by_cases h3 : matchesAny ["senior", "sr", "lead", "level 4"] (jsLower s) = true <;>
        by_cases h4 : matchesAny ["staff", "principal", "level 5"] (jsLower s) = true <;>
        by_cases h5 : matchesAny ["director", "vp", "head of", "chief"] (jsLower s) = true <;>
        simp [List.find?, h1, h2, h3, h4, h5]

/-- C1 amended: a reconciliation cycle whose incoming list is empty is
special-cased into an early return: it yields counts all zero and leaves the
table untouched, skipping removals entirely. -/
theorem c1_empty_incoming_noop (db : List JobPosting) (companyId jobBoardName : String)
    (now nextId : Nat) :
    syncAshbyJobs db companyId jobBoardName [] now nextId = (db, ⟨0, 0, 0⟩) := rfl

/-- C1 counterexample: with one currently active existing record of the
company and source and an empty incoming list, the cycle returns
removed = 0 and leaves the record active and the table unchanged, not
removed = 1 with removedAt set to now as the claim requires. -/
theorem c1_empty_incoming_counterexample :
    syncAshbyJobs [exampleRowA] "c1" "board" [] 5 10 = ([exampleRowA], ⟨0, 0, 0⟩) ∧
    exampleRowA.removedAt = none :=
  ⟨rfl, rfl⟩

/-- Helper: unfolding of the fetch over a cons cell. -/
theorem fetchExisting_cons (a : JobPosting) (l : List JobPosting) (cid : String)
    (ids : List String) :
    fetchExisting (a :: l) cid ids =
      if a.companyId == cid && a.source == "ashby" && ids.contains a.externalId then
        ⟨a.id, a.externalId, a.descriptionHash⟩ :: fetchExisting l cid ids
      else fetchExisting l cid ids := by
  simp only [fetchExisting, List.filter_cons]
  split <;> simp

/-- Helper: membership in the fetched summaries. -/
theorem mem_fetchExisting {db : List JobPosting} {cid : String} {ids : List String}
    {e : JobSummary} :
    e ∈ fetchExisting db cid ids ↔
      ∃ r ∈ db, r.companyId = cid ∧ r.source = "ashby" ∧ r.externalId ∈ ids ∧
        e = ⟨r.id, r.externalId, r.descriptionHash⟩ := by
  simp only [fetchExisting, List.mem_map, List.mem_filter, Bool.and_eq_true, beq_iff_eq,
    List.elem_iff]
  constructor
  · rintro ⟨r, ⟨hr, ⟨h1, h2⟩, h3⟩, he⟩
    exact ⟨r, hr, h1, h2, h3, he.symm⟩
  · rintro ⟨r, hr, h1, h2, h3, he⟩
    exact ⟨r, ⟨hr, ⟨h1, h2⟩, h3⟩, he.symm⟩

/-- Helper: a map lookup succeeds exactly when some fetched entry carries the
key. -/
theorem mapGet_isSome_iff {entries : List JobSummary} {k : String} :
    (mapGet entries k).isSome ↔ ∃ e ∈ entries, e.externalId = k := by
  rw [mapGet, List.getLast?_isSome]
  simp only [ne_eq, List.filter_eq_nil_iff, beq_iff_eq, not_forall]
  constructor
  · rintro ⟨e, he, hk⟩
    exact ⟨e, he, not_not.1 hk⟩
  · rintro ⟨e, he, hk⟩
    exact ⟨e, he, not_not.2 hk⟩

/-- Helper: a successful map lookup returns an entry of the list carrying the
key. -/
theorem mapGet_eq_some_mem {entries : List JobSummary} {k : String} {e : JobSummary}
    (h : mapGet entries k = some e) : e ∈ entries ∧ e.externalId = k := by
  have hmem := List.mem_of_mem_getLast? h
  have := List.mem_filter.1 hmem
  exact ⟨this.1, by simpa using this.2⟩

/-- Helper: with a key-unique table, looking up the key of a row of the
reconciled company and source returns exactly the summary of that row. -/
theorem mapGet_fetch_eq {db : List JobPosting} {cid k : String} {ids : List String}
    (hkey : keyUnique db) (r : JobPosting) (hr : r ∈ db) (h1 : r.companyId = cid)
    (h2 : r.source = "ashby") (h3 : r.externalId = k) (h4 : k ∈ ids) :
    mapGet (fetchExisting db cid ids) k = some ⟨r.id, k, r.descriptionHash⟩ := by
  subst h3
  subst h1
  have hfilter : (fetchExisting db r.companyId ids).filter
      (fun e => e.externalId == r.externalId) = [⟨r.id, r.externalId, r.descriptionHash⟩] := by
    induction db with
    | nil => cases hr
    | cons a l ih =>
      rw [keyUnique, List.pairwise_cons] at hkey
      rw [fetchExisting_cons]
      rcases List.mem_cons.1 hr with heq | hmem
      · subst heq
        rw [if_pos (by simp [h2, List.elem_iff, h4])]
        rw [List.filter_cons]
        rw [if_pos (by simp)]
        have hnil : (fetchExisting l r.companyId ids).filter
            (fun e => e.externalId == r.externalId) = [] := by
          rw [List.filter_eq_nil_iff]
          intro e he
          rcases mem_fetchExisting.1 he with ⟨s, hs, hs1, hs2, _, rfl⟩
          simp only [beq_iff_eq]
          intro hek
          exact hkey.1 s hs ⟨hs1.symm, h2.trans hs2.symm, hek.symm⟩
        rw [hnil]
      · have htail := ih hkey.2 hmem
        split
        · rw [List.filter_cons]
          have hne : (a.externalId == r.externalId) = false := by
            rename_i hcond
            simp only [Bool.and_eq_true, beq_iff_eq, List.elem_iff] at hcond
            by_contra hcontra
            simp only [Bool.not_eq_false, beq_iff_eq] at hcontra
            exact hkey.1 r hmem ⟨hcond.1.1, hcond.1.2.trans h2.symm, hcontra⟩
          rw [if_neg (by simp [hne])]
          exact htail
        · exact htail
  rw [mapGet, hfilter]
  rfl

/-- Helper: the delete-candidate list of syncAshbyJobs is always empty,
because the fetch is already restricted to the incoming external ids. -/
theorem sync_deleted_nil (db : List JobPosting) (cid : String) (ids : List String) :
    (fetchExisting db cid ids).filter
      (fun j => j.externalId != "" && !ids.contains j.externalId) = [] := by
  rw [List.filter_eq_nil_iff]
  intro e he
  rcases mem_fetchExisting.1 he with ⟨r, _, _, _, hmem, rfl⟩
  simp [List.elem_iff, hmem]

/-- Helper: the id of a freshly created row is the supplied fresh id. -/
theorem mkCreateRow_id (cid : String) (j : AshbyJob) (now m : Nat) :
    (mkCreateRow cid j now m).id = m := rfl

/-- Helper: the external id of a freshly created row is the incoming id. -/
theorem mkCreateRow_externalId (cid : String) (j : AshbyJob) (now m : Nat) :
    (mkCreateRow cid j now m).externalId = j.id := rfl

/-- Helper: the company id of a freshly created row. -/
theorem mkCreateRow_companyId (cid : String) (j : AshbyJob) (now m : Nat) :
    (mkCreateRow cid j now m).companyId = cid := rfl

/-- Helper: the source of a freshly created row. -/
theorem mkCreateRow_source (cid : String) (j : AshbyJob) (now m : Nat) :
    (mkCreateRow cid j now m).source = "ashby" := rfl

/-- Helper: a freshly created row starts active. -/
theorem mkCreateRow_removedAt (cid : String) (j : AshbyJob) (now m : Nat) :
    (mkCreateRow cid j now m).removedAt = none := rfl

/-- Helper: a freshly created row stores the fingerprint of its content. -/
theorem mkCreateRow_hash (cid : String) (j : AshbyJob) (now m : Nat) :
    (mkCreateRow cid j now m).descriptionHash = (mkJobData j now).descriptionHash := rfl

/-- Helper: the stored fingerprint of prepared job data does not depend on the
cycle timestamp. -/
theorem mkJobData_hash (j : AshbyJob) (now1 now2 : Nat) :
    (mkJobData j now1).descriptionHash = (mkJobData j now2).descriptionHash := rfl

/-- Helper: the update entries of the sync plan, as a filterMap over the
incoming jobs; the fresh-id counter does not influence them. -/
theorem syncPlan_snd (lookup : String → Option JobSummary) (cid : String) (now : Nat)
    (js : List AshbyJob) (nid : Nat) :
    (syncPlan lookup cid now js nid).2 =
      js.filterMap (fun j => (lookup j.id).map (fun ex => (ex.id, mkJobData j now))) := by
  induction js generalizing nid with
  | nil => rfl
  | cons j rest ih =>
    cases h : lookup j.id <;> simp [syncPlan, h, ih]

/-- Helper: the number of update entries of the sync plan is the number of
incoming jobs whose lookup succeeds. -/
theorem syncPlan_snd_length (lookup : String → Option JobSummary) (cid : String) (now : Nat)
    (js : List AshbyJob) (nid : Nat) :
    (syncPlan lookup cid now js nid).2.length =
      js.countP (fun j => (lookup j.id).isSome) := by
  induction js generalizing nid with
  | nil => rfl
  | cons j rest ih =>
    cases h : lookup j.id <;> simp [syncPlan, h, ih, List.countP_cons]

/-- Helper: the update entries of the upsert plan, as a filterMap over the
incoming jobs. -/
theorem upsertPlan_snd (lookup : String → Option JobSummary) (cid : String) (now : Nat)
    (js : List AshbyJob) (nid : Nat) :
    (upsertPlan lookup cid now js nid).2 =
      js.filterMap (fun j => (lookup j.id).map (fun ex =>
        (⟨ex.id, mkJobData j now, ex.descriptionHash != (mkJobData j now).descriptionHash⟩ :
          UpdateOp))) := by
  induction js generalizing nid with
  | nil => rfl
  | cons j rest ih =>
    cases h : lookup j.id <;> simp [upsertPlan, h, ih]

/-- Helper: every create row of the upsert plan comes from an incoming job
whose lookup failed, with a fresh id at least the counter. -/
theorem upsertPlan_fst_mem {lookup : String → Option JobSummary} {cid : String} {now : Nat}
    {js : List AshbyJob} {nid : Nat} {c : JobPosting}
    (hc : c ∈ (upsertPlan lookup cid now js nid).1) :
    ∃ j ∈ js, lookup j.id = none ∧ ∃ m, nid ≤ m ∧ c = mkCreateRow cid j now m := by
  induction js generalizing nid with
  | nil => cases hc
  | cons j rest ih =>
    cases h : lookup j.id with
    | some ex =>
      rw [upsertPlan] at hc
      simp only [h] at hc
      rcases ih hc with ⟨j2, hj2, hl, m, hm, hc2⟩
      exact ⟨j2, List.mem_cons_of_mem _ hj2, hl, m, hm, hc2⟩
    | none =>
      rw [upsertPlan] at hc
      simp only [h] at hc
      rcases List.mem_cons.1 hc with heq | hmem
      · exact ⟨j, List.mem_cons_self _ _, h, nid, Nat.le_refl _, heq⟩
      · rcases ih hmem with ⟨j2, hj2, hl, m, hm, hc2⟩
        exact ⟨j2, List.mem_cons_of_mem _ hj2, hl, m, Nat.le_of_succ_le hm, hc2⟩

/-- Helper: every create row of the sync plan comes from an incoming job whose
lookup failed, with a fresh id at least the counter. -/
theorem syncPlan_fst_mem {lookup : String → Option JobSummary} {cid : String} {now : Nat}
    {js : List AshbyJob} {nid : Nat} {c : JobPosting}
    (hc : c ∈ (syncPlan lookup cid now js nid).1) :
    ∃ j ∈ js, lookup j.id = none ∧ ∃ m, nid ≤ m ∧ c = mkCreateRow cid j now m := by
  induction js generalizing nid with
  | nil => cases hc
  | cons j rest ih =>
    cases h : lookup j.id with
    | some ex =>
      rw [syncPlan] at hc
      simp only [h] at hc
      rcases ih hc with ⟨j2, hj2, hl, m, hm, hc2⟩
      exact ⟨j2, List.mem_cons_of_mem _ hj2, hl, m, hm, hc2⟩
    | none =>
      rw [syncPlan] at hc
      simp only [h] at hc
      rcases List.mem_cons.1 hc with heq | hmem
      · exact ⟨j, List.mem_cons_self _ _, h, nid, Nat.le_refl _, heq⟩
      · rcases ih hmem with ⟨j2, hj2, hl, m, hm, hc2⟩
        exact ⟨j2, List.mem_cons_of_mem _ hj2, hl, m, Nat.le_of_succ_le hm, hc2⟩

/-- Helper: the upsert plan creates nothing when every incoming job has an
existing row. -/
theorem upsertPlan_fst_eq_nil {lookup : String → Option JobSummary} {cid : String}
    {now : Nat} {js : List AshbyJob} {nid : Nat}
    (h : ∀ j ∈ js, (lookup j.id).isSome = true) :
    (upsertPlan lookup cid now js nid).1 = [] := by
  induction js generalizing nid with
  | nil => rfl
  | cons j rest ih =>
    cases hj : lookup j.id with
    | some ex =>
      rw [upsertPlan]
      simp only [hj]
      exact ih (fun j2 hj2 => h j2 (List.mem_cons_of_mem _ hj2))
    | none =>
      have := h j (List.mem_cons_self _ _)
      rw [hj] at this
      cases this

/-- Helper: every incoming job without an existing row gets a create row in
the upsert plan. -/
theorem upsertPlan_fst_covers {lookup : String → Option JobSummary} {cid : String}
    {now : Nat} {js : List AshbyJob} {nid : Nat} {j : AshbyJob}
    (hj : j ∈ js) (h : lookup j.id = none) :
    ∃ m, mkCreateRow cid j now m ∈ (upsertPlan lookup cid now js nid).1 := by
  induction js generalizing nid with
  | nil => cases hj
  | cons j2 rest ih =>
    cases h2 : lookup j2.id with
    | some ex =>
      rcases List.mem_cons.1 hj with heq | hmem
      · subst heq; rw [h] at h2; cases h2
      · rcases ih hmem with ⟨m, hm⟩
        refine ⟨m, ?_⟩
        rw [upsertPlan]
        simp only [h2]
        exact hm
    | none =>
      rcases List.mem_cons.1 hj with heq | hmem
      · subst heq
        refine ⟨nid, ?_⟩
        rw [upsertPlan]
        simp only [h2]
        exact List.mem_cons_self _ _
      · rcases ih hmem with ⟨m, hm⟩
        refine ⟨m, ?_⟩
        rw [upsertPlan]
        simp only [h2]
        exact List.mem_cons_of_mem _ hm

/-- Helper: the ids of the upsert-plan create rows are pairwise distinct. -/
theorem upsertPlan_fst_ids_nodup (lookup : String → Option JobSummary) (cid : String)
    (now : Nat) (js : List AshbyJob) (nid : Nat) :
    ((upsertPlan lookup cid now js nid).1.map (fun r => r.id)).Nodup := by
  induction js generalizing nid with
  | nil => exact List.nodup_nil
  | cons j rest ih =>
    cases h : lookup j.id with
    | some ex =>
      rw [upsertPlan]
      simp only [h]
      exact ih nid
    | none =>
      rw [upsertPlan]
      simp only [h, List.map_cons, List.nodup_cons]
      refine ⟨?_, ih (nid + 1)⟩
      rw [mkCreateRow_id]
      intro hmem
      rcases List.mem_map.1 hmem with ⟨c, hc, hid⟩
      rcases upsertPlan_fst_mem hc with ⟨_, _, _, m, hm, rfl⟩
      rw [mkCreateRow_id] at hid
      omega

/-- Helper: an update op preserves the identity and lifecycle-origin fields of
a row. -/
theorem applyJobUpdate_const (d : JobData) (r : JobPosting) :
    (applyJobUpdate d r).id = r.id ∧ (applyJobUpdate d r).companyId = r.companyId ∧
    (applyJobUpdate d r).source = r.source ∧ (applyJobUpdate d r).externalId = r.externalId ∧
    (applyJobUpdate d r).firstSeenAt = r.firstSeenAt :=
  ⟨rfl, rfl, rfl, rfl, rfl⟩

/-- Helper: the row-wise update fold preserves identity and lifecycle-origin
fields. -/
theorem applyUpdatesRow_const (ops : List (Nat × JobData)) (r : JobPosting) :
    (applyUpdatesRow ops r).id = r.id ∧ (applyUpdatesRow ops r).companyId = r.companyId ∧
    (applyUpdatesRow ops r).source = r.source ∧
    (applyUpdatesRow ops r).externalId = r.externalId ∧
    (applyUpdatesRow ops r).firstSeenAt = r.firstSeenAt := by
  induction ops generalizing r with
  | nil => exact ⟨rfl, rfl, rfl, rfl, rfl⟩
  | cons op rest ih =>
    have hstep : applyUpdatesRow (op :: rest) r =
        applyUpdatesRow rest (if r.id == op.1 then applyJobUpdate op.2 r else r) := rfl
    rw [hstep]
    rcases ih (if r.id == op.1 then applyJobUpdate op.2 r else r) with ⟨e1, e2, e3, e4, e5⟩
    rw [e1, e2, e3, e4, e5]
    split <;> exact ⟨rfl, rfl, rfl, rfl, rfl⟩

/-- Helper: a row targeted by none of the ops is left unchanged by the
row-wise update fold. -/
theorem applyUpdatesRow_untouched {ops : List (Nat × JobData)} {r : JobPosting}
    (h : ∀ op ∈ ops, op.1 ≠ r.id) : applyUpdatesRow ops r = r := by
  induction ops with
  | nil => rfl
  | cons op rest ih =>
    have hstep : applyUpdatesRow (op :: rest) r =
        applyUpdatesRow rest (if r.id == op.1 then applyJobUpdate op.2 r else r) := rfl
    rw [hstep]
    rw [if_neg (by simp [beq_iff_eq]; exact fun he => h op (List.mem_cons_self _ _) he.symm)]
    exact ih (fun op2 h2 => h op2 (List.mem_cons_of_mem _ h2))

/-- Helper: once a row carries lastSeenAt = now and a cleared removedAt, the
remaining ops of a plan whose update data all carry lastSeenAt = now keep it
that way. -/
theorem applyUpdatesRow_seen_keep {ops : List (Nat × JobData)} {r : JobPosting} {now : Nat}
    (hall : ∀ op ∈ ops, (op.2).lastSeenAt = now)
    (h1 : r.lastSeenAt = now) (h2 : r.removedAt = none) :
    (applyUpdatesRow ops r).lastSeenAt = now ∧ (applyUpdatesRow ops r).removedAt = none := by
  induction ops generalizing r with
  | nil => exact ⟨h1, h2⟩
  | cons op rest ih =>
    have hstep : applyUpdatesRow (op :: rest) r =
        applyUpdatesRow rest (if r.id == op.1 then applyJobUpdate op.2 r else r) := rfl
    rw [hstep]
    by_cases h : (r.id == op.1) = true
    · rw [if_pos h]
      exact ih (fun o ho => hall o (List.mem_cons_of_mem _ ho))
        (hall op (List.mem_cons_self _ _)) rfl
    · rw [if_neg h]
      exact ih (fun o ho => hall o (List.mem_cons_of_mem _ ho)) h1 h2

/-- Helper: a row targeted by at least one op of a plan whose update data all
carry lastSeenAt = now ends with lastSeenAt = now and removedAt cleared. -/
theorem applyUpdatesRow_seen {ops : List (Nat × JobData)} {r : JobPosting} {now : Nat}
    (hall : ∀ op ∈ ops, (op.2).lastSeenAt = now)
    (hhit : ∃ op ∈ ops, op.1 = r.id) :
    (applyUpdatesRow ops r).lastSeenAt = now ∧ (applyUpdatesRow ops r).removedAt = none := by
  induction ops generalizing r with
  | nil => rcases hhit with ⟨op, hmem, _⟩; cases hmem
  | cons op rest ih =>
    have hstep : applyUpdatesRow (op :: rest) r =
        applyUpdatesRow rest (if r.id == op.1 then applyJobUpdate op.2 r else r) := rfl
    rw [hstep]
    by_cases h : (r.id == op.1) = true
    · rw [if_pos h]
      exact applyUpdatesRow_seen_keep (fun o ho => hall o (List.mem_cons_of_mem _ ho))
        (hall op (List.mem_cons_self _ _)) rfl
    · rw [if_neg h]
      rcases hhit with ⟨op2, hmem2, hid2⟩
      rcases List.mem_cons.1 hmem2 with heq | hmem3
      · subst heq
        rw [hid2] at h
        simp at h
      · exact ih (fun o ho => hall o (List.mem_cons_of_mem _ ho)) ⟨op2, hmem3, hid2⟩

/-- Helper: once a row carries the target fingerprint and a cleared removedAt,
remaining ops whose data for this row all carry that fingerprint keep it. -/
theorem applyUpdatesRow_hash_keep {ops : List (Nat × JobData)} {r : JobPosting} {hsh : String}
    (hall : ∀ op ∈ ops, op.1 = r.id → (op.2).descriptionHash = hsh)
    (h1 : r.descriptionHash = hsh) (h2 : r.removedAt = none) :
    (applyUpdatesRow ops r).descriptionHash = hsh ∧
    (applyUpdatesRow ops r).removedAt = none := by
  induction ops generalizing r with
  | nil => exact ⟨h1, h2⟩
  | cons op rest ih =>
    have hstep : applyUpdatesRow (op :: rest) r =
        applyUpdatesRow rest (if r.id == op.1 then applyJobUpdate op.2 r else r) := rfl
    rw [hstep]
    by_cases h : (r.id == op.1) = true
    · rw [if_pos h]
      have hid : op.1 = r.id := (beq_iff_eq.1 h).symm
      exact ih (fun o ho he => hall o (List.mem_cons_of_mem _ ho) he)
        (hall op (List.mem_cons_self _ _) hid) rfl
    · rw [if_neg h]
      exact ih (fun o ho he => hall o (List.mem_cons_of_mem _ ho) he) h1 h2

/-- Helper: a row targeted by at least one op, where every op targeting it
carries the target fingerprint, ends with that fingerprint stored and
removedAt cleared. -/
theorem applyUpdatesRow_hash {ops : List (Nat × JobData)} {r : JobPosting} {hsh : String}
    (hall : ∀ op ∈ ops, op.1 = r.id → (op.2).descriptionHash = hsh)
    (hhit : ∃ op ∈ ops, op.1 = r.id) :
    (applyUpdatesRow ops r).descriptionHash = hsh ∧
    (applyUpdatesRow ops r).removedAt = none := by
  induction ops generalizing r with
  | nil => rcases hhit with ⟨op, hmem, _⟩; cases hmem
  | cons op rest ih =>
    have hstep : applyUpdatesRow (op :: rest) r =
        applyUpdatesRow rest (if r.id == op.1 then applyJobUpdate op.2 r else r) := rfl
    rw [hstep]
    by_cases h : (r.id == op.1) = true
    · rw [if_pos h]
      have hid : op.1 = r.id := (beq_iff_eq.1 h).symm
      exact applyUpdatesRow_hash_keep (fun o ho he => hall o (List.mem_cons_of_mem _ ho) he)
        (hall op (List.mem_cons_self _ _) hid) rfl
    · rw [if_neg h]
      rcases hhit with ⟨op2, hmem2, hid2⟩
      rcases List.mem_cons.1 hmem2 with heq | hmem3
      · subst heq
        rw [hid2] at h
        simp at h
      · exact ih (fun o ho he => hall o (List.mem_cons_of_mem _ ho) he) ⟨op2, hmem3, hid2⟩

/-- Helper: the sequential update loop equals the row-wise fold mapped over
the table. -/
theorem applyUpdates_eq_map (ops : List (Nat × JobData)) (db : List JobPosting) :
    applyUpdates ops db = db.map (applyUpdatesRow ops) := by
  induction ops generalizing db with
  | nil =>
    rw [show applyUpdatesRow ([] : List (Nat × JobData)) = fun r => r from rfl, List.map_id']
    rfl
  | cons op rest ih =>
    have hstep : applyUpdates (op :: rest) db =
        applyUpdates rest (db.map (fun r => if r.id == op.1 then applyJobUpdate op.2 r else r)) :=
      rfl
    rw [hstep, ih, List.map_map]
    rfl

/-- Helper: normal form of a nonempty-incoming syncAshbyJobs cycle: creates
are appended, every row goes through the row-wise update fold, the delete
candidate set is empty so nothing is removed, and the counts are the plan
sizes with removed always 0. -/
theorem syncAshbyJobs_eq (db : List JobPosting) (cid b : String) (jobs : List AshbyJob)
    (now nid : Nat) (h : jobs ≠ []) :
    syncAshbyJobs db cid b jobs now nid =
      (((db ++ (syncStage db cid jobs now nid).1).map
          (applyUpdatesRow (syncStage db cid jobs now nid).2)),
        ⟨(syncStage db cid jobs now nid).1.length, (syncStage db cid jobs now nid).2.length,
          0⟩) := by
  have hEmpty : jobs.isEmpty = false := by
    cases jobs with
    | nil => exact absurd rfl h
    | cons a l => rfl
  simp only [syncAshbyJobs, hEmpty, Bool.false_eq_true, if_false, sync_deleted_nil,
    List.map_nil, List.length_nil, applyUpdates_eq_map, syncStage]
  rw [show (fun (r : JobPosting) => ! [].contains r.id) = fun _ => true from rfl,
    List.filter_true]

/-- Helper: normal form of a nonempty-incoming upsertAshbyJobs cycle: the
update loop runs over the table, creates are appended, then the soft-delete
marking maps over the result; the counts are creates, changed updates, and
the number of rows matched by the soft-delete filter. -/
theorem upsertAshbyJobs_eq (db : List JobPosting) (cid b : String) (jobs : List AshbyJob)
    (now nid : Nat) (h : jobs ≠ []) :
    upsertAshbyJobs db cid b jobs now nid =
      ((upsertWritten db cid jobs now nid).map
          (markRemoved cid (jobs.map (fun j => j.id)) now),
        ⟨(upsertStage db cid jobs now nid).1.length,
          ((upsertStage db cid jobs now nid).2.filter (fun o => o.changed)).length,
          ((upsertWritten db cid jobs now nid).filter
            (removalPred cid (jobs.map (fun j => j.id)))).length⟩) := by
  have hEmpty : jobs.isEmpty = false := by
    cases jobs with
    | nil => exact absurd rfl h
    | cons a l => rfl
  simp only [upsertAshbyJobs, hEmpty, Bool.false_eq_true, if_false, applyUpdates_eq_map,
    upsertStage, upsertWritten]

/-- Helper: the soft-delete marking preserves identity, key and lifecycle
origin of a row. -/
theorem markRemoved_const (cid : String) (seen : List String) (now : Nat) (r : JobPosting) :
    (markRemoved cid seen now r).id = r.id ∧
    (markRemoved cid seen now r).companyId = r.companyId ∧
    (markRemoved cid seen now r).source = r.source ∧
    (markRemoved cid seen now r).externalId = r.externalId ∧
    (markRemoved cid seen now r).firstSeenAt = r.firstSeenAt := by
  rw [markRemoved]
  split <;> exact ⟨rfl, rfl, rfl, rfl, rfl⟩

/-- C5 amended: the updated count returned by syncAshbyJobs equals the number
of update entries emitted, which is the number of incoming records whose
external id matches an existing row of the company and source, counted
regardless of whether the content fingerprint changed. -/
theorem c5_updated_counts_all_survivors (db : List JobPosting) (cid b : String)
    (jobs : List AshbyJob) (now nid : Nat) :
    (syncAshbyJobs db cid b jobs now nid).2.jobsUpdated =
      jobs.countP (fun j => matchedExisting db cid j) := by
  by_cases h : jobs = []
  · subst h; rfl
  · rw [syncAshbyJobs_eq db cid b jobs now nid h]
    show (syncStage db cid jobs now nid).2.length = _
    rw [syncStage, syncPlan_snd_length]
    apply List.countP_congr
    intro j hj
    rw [mapGet_isSome_iff]
    rw [matchedExisting, List.any_eq_true]
    constructor
    · rintro ⟨e, he, hek⟩
      rcases mem_fetchExisting.1 he with ⟨r, hr, h1, h2, _, rfl⟩
      refine ⟨r, hr, ?_⟩
      simp [h1, h2]
      exact hek
    · rintro ⟨r, hr, hp⟩
      simp only [Bool.and_eq_true, beq_iff_eq] at hp
      refine ⟨⟨r.id, r.externalId, r.descriptionHash⟩, ?_, hp.2⟩
      exact mem_fetchExisting.2 ⟨r, hr, hp.1.1, hp.1.2, by
        rw [hp.2]; exact List.mem_map.2 ⟨j, hj, rfl⟩, rfl⟩

/-- C5 counterexample: one existing row whose stored fingerprint equals the
freshly computed fingerprint of the single incoming record: the cycle
returns updated = 1 although the number of surviving records with a
differing fingerprint is 0, so the returned count does not equal the
changed-row count. -/
theorem c5_updated_count_counterexample :
    (syncAshbyJobs [exampleRowHashed] "c1" "board" [exampleJobA] 7 10).2.jobsUpdated = 1 ∧
    survivorChangedCount [exampleRowHashed] "c1" [exampleJobA] 7 = 0 := by
  refine ⟨rfl, ?_⟩
  set_option maxRecDepth 8000 in decide

/-- Helper: every update entry of the sync plan carries lastSeenAt = now in
its data. -/
theorem syncPlan_snd_lastSeen (lookup : String → Option JobSummary) (cid : String)
    (now : Nat) (js : List AshbyJob) (nid : Nat) :
    ∀ op ∈ (syncPlan lookup cid now js nid).2, (op.2).lastSeenAt = now := by
  intro op hop
  rw [syncPlan_snd] at hop
  rcases List.mem_filterMap.1 hop with ⟨j, _, hf⟩
  cases hl : lookup j.id with
  | none => rw [hl] at hf; cases hf
  | some ex =>
    rw [hl] at hf
    cases hf
    rfl

/-- C6: for every incoming record whose external id matches an existing row of
the company and source, an update is emitted and applied to that row setting
lastSeenAt to now and clearing removedAt to null, regardless of whether the
fingerprint changed and regardless of whether the row was previously
removed. -/
theorem c6_update_always_refreshes (db : List JobPosting) (cid b : String)
    (jobs : List AshbyJob) (now nid : Nat) (hkey : keyUnique db) :
    ∀ j ∈ jobs, ∀ r ∈ db, r.companyId = cid → r.source = "ashby" → r.externalId = j.id →
      ∃ r2 ∈ (syncAshbyJobs db cid b jobs now nid).1,
        r2.id = r.id ∧ r2.lastSeenAt = now ∧ r2.removedAt = none := by
  intro j hj r hr h1 h2 h3
  have hne : jobs ≠ [] := by
    intro he
    subst he
    cases hj
  rw [syncAshbyJobs_eq db cid b jobs now nid hne]
  refine ⟨applyUpdatesRow (syncStage db cid jobs now nid).2 r,
    List.mem_map_of_mem _ (List.mem_append_left _ hr), (applyUpdatesRow_const _ _).1, ?_⟩
  have hlook : mapGet (fetchExisting db cid (jobs.map (fun x => x.id))) j.id =
      some ⟨r.id, j.id, r.descriptionHash⟩ :=
    mapGet_fetch_eq hkey r hr h1 h2 h3 (List.mem_map.2 ⟨j, hj, rfl⟩)
  have hhit : ∃ op ∈ (syncStage db cid jobs now nid).2, op.1 = r.id := by
    refine ⟨(r.id, mkJobData j now), ?_, rfl⟩
    rw [syncStage, syncPlan_snd]
    exact List.mem_filterMap.2 ⟨j, hj, by rw [hlook]; rfl⟩
  have hall : ∀ op ∈ (syncStage db cid jobs now nid).2, (op.2).lastSeenAt = now := by
    intro op hop
    have hop2 : op ∈ (syncPlan (mapGet (fetchExisting db cid (jobs.map (fun x => x.id))))
        cid now jobs nid).2 := hop
    exact syncPlan_snd_lastSeen (mapGet (fetchExisting db cid (jobs.map (fun x => x.id))))
      cid now jobs nid op hop2
  exact applyUpdatesRow_seen hall hhit

/-- Witness for C6: a removed-then-reappearing record with identical content
still gets lastSeenAt refreshed and removedAt cleared. -/
theorem c6_update_always_refreshes_witness :
    ∃ r2 ∈ (syncAshbyJobs [exampleRowHashed] "c1" "board" [exampleJobA] 7 10).1,
      r2.id = exampleRowHashed.id ∧ r2.lastSeenAt = 7 ∧ r2.removedAt = none :=
  c6_update_always_refreshes [exampleRowHashed] "c1" "board" [exampleJobA] 7 10
    (List.pairwise_singleton _ _) exampleJobA (List.mem_singleton.2 rfl)
    exampleRowHashed (List.mem_singleton.2 rfl) rfl rfl rfl

/-- Helper: every update op of the upsert plan targets the id of a row of the
reconciled company and source whose external id is among the incoming ids. -/
theorem upsert_ops_target {db : List JobPosting} {cid : String} {jobs : List AshbyJob}
    {now nid : Nat} {op : Nat × JobData}
    (hop : op ∈ (upsertStage db cid jobs now nid).2.map (fun o => (o.existingId, o.data))) :
    ∃ w ∈ db, w.id = op.1 ∧ w.companyId = cid ∧ w.source = "ashby" ∧
      w.externalId ∈ jobs.map (fun j => j.id) := by
  rcases List.mem_map.1 hop with ⟨o, ho, rfl⟩
  have ho2 : o ∈ (upsertPlan (mapGet (fetchExisting db cid (jobs.map (fun j => j.id))))
      cid now jobs nid).2 := ho
  rw [upsertPlan_snd] at ho2
  rcases List.mem_filterMap.1 ho2 with ⟨j, hj, hf⟩
  cases hl : mapGet (fetchExisting db cid (jobs.map (fun j => j.id))) j.id with
  | none => rw [hl] at hf; cases hf
  | some ex =>
    rw [hl] at hf
    cases hf
    rcases mapGet_eq_some_mem hl with ⟨hex, _⟩
    rcases mem_fetchExisting.1 hex with ⟨w, hw, h1, h2, h3, rfl⟩
    exact ⟨w, hw, rfl, h1, h2, h3⟩

/-- Helper: with pairwise-distinct internal ids, a row whose external id is
absent from the incoming ids is not touched by the update loop of the upsert
cycle. -/
theorem upsert_untouched {db : List JobPosting} {cid : String} {jobs : List AshbyJob}
    {now nid : Nat} {r : JobPosting} (hids : idsNodup db) (hr : r ∈ db)
    (habs : r.externalId ∉ jobs.map (fun j => j.id)) :
    applyUpdatesRow
      ((upsertStage db cid jobs now nid).2.map (fun o => (o.existingId, o.data))) r = r := by
  apply applyUpdatesRow_untouched
  intro op hop heq
  rcases upsert_ops_target hop with ⟨w, hw, hid, _, _, hext⟩
  have hwr : w = r := List.inj_on_of_nodup_map hids hw hr (by rw [hid, heq])
  subst hwr
  exact habs hext

/-- Helper: a create row of the upsert plan never matches the soft-delete
filter, because its external id was seen this scrape. -/
theorem upsert_creates_not_removed {db : List JobPosting} {cid : String}
    {jobs : List AshbyJob} {now nid : Nat} {c : JobPosting}
    (hc : c ∈ (upsertStage db cid jobs now nid).1) :
    removalPred cid (jobs.map (fun j => j.id)) c = false := by
  have hc2 : c ∈ (upsertPlan (mapGet (fetchExisting db cid (jobs.map (fun j => j.id))))
      cid now jobs nid).1 := hc
  rcases upsertPlan_fst_mem hc2 with ⟨j, hj, _, m, _, rfl⟩
  rw [removalPred, mkCreateRow_externalId]
  have hmem : j.id ∈ jobs.map (fun j => j.id) := List.mem_map.2 ⟨j, hj, rfl⟩
  simp [List.elem_iff, hmem]

/-- Helper: the soft-delete count of a nonempty-incoming upsert cycle equals
the number of active rows of the company and source whose external id is
absent from the incoming set. -/
theorem upsert_removed_count (db : List JobPosting) (cid b : String) (jobs : List AshbyJob)
    (now nid : Nat) (hne : jobs ≠ []) (hids : idsNodup db) :
    (upsertAshbyJobs db cid b jobs now nid).2.jobsRemoved =
      (db.filter (removalPred cid (jobs.map (fun j => j.id)))).length := by
  rw [upsertAshbyJobs_eq db cid b jobs now nid hne]
  show ((upsertWritten db cid jobs now nid).filter _).length = _
  rw [upsertWritten, List.filter_append, List.length_append]
  have hcreates : (((upsertStage db cid jobs now nid).1).filter
      (removalPred cid (jobs.map (fun j => j.id)))).length = 0 := by
    rw [List.length_eq_zero, List.filter_eq_nil_iff]
    intro c hc hpred
    rw [upsert_creates_not_removed hc] at hpred
    cases hpred
  rw [hcreates, Nat.add_zero]
  rw [← List.countP_eq_length_filter, ← List.countP_eq_length_filter, List.countP_map]
  apply List.countP_congr
  intro r hr
  show removalPred cid (jobs.map (fun j => j.id)) (applyUpdatesRow _ r) = true ↔
    removalPred cid (jobs.map (fun j => j.id)) r = true
  by_cases habs : r.externalId ∈ jobs.map (fun j => j.id)
  · have h1 : removalPred cid (jobs.map (fun j => j.id))
        (applyUpdatesRow ((upsertStage db cid jobs now nid).2.map
          (fun o => (o.existingId, o.data))) r) = false := by
      rw [removalPred, (applyUpdatesRow_const _ _).2.2.2.1]
      simp [List.elem_iff, habs]
    have h2 : removalPred cid (jobs.map (fun j => j.id)) r = false := by
      rw [removalPred]
      simp [List.elem_iff, habs]
    rw [h1, h2]
  · rw [upsert_untouched hids hr habs]

/-- Helper: a nonempty-incoming upsert cycle marks every active absent row of
the company and source with removedAt = now, preserving its identity,
external id and firstSeenAt. -/
theorem upsert_marks_absent (db : List JobPosting) (cid b : String) (jobs : List AshbyJob)
    (now nid : Nat) (hne : jobs ≠ []) (hids : idsNodup db) :
    ∀ r ∈ db, removalPred cid (jobs.map (fun j => j.id)) r = true →
      ∃ r2 ∈ (upsertAshbyJobs db cid b jobs now nid).1,
        r2.id = r.id ∧ r2.removedAt = some now ∧ r2.externalId = r.externalId ∧
        r2.firstSeenAt = r.firstSeenAt := by
  intro r hr hpred
  rw [upsertAshbyJobs_eq db cid b jobs now nid hne]
  have habs : r.externalId ∉ jobs.map (fun j => j.id) := by
    intro hmem
    rw [removalPred] at hpred
    have hcont : (jobs.map (fun j => j.id)).contains r.externalId = true := by
      simp [List.elem_iff, hmem]
    rw [hcont] at hpred
    simp at hpred
  have huntouched := @upsert_untouched db cid jobs now nid r hids hr habs
  refine ⟨markRemoved cid (jobs.map (fun j => j.id)) now r, ?_, ?_, ?_, ?_, ?_⟩
  · apply List.mem_map_of_mem
    rw [upsertWritten]
    apply List.mem_append_left
    exact huntouched ▸ List.mem_map_of_mem _ hr
  · exact (markRemoved_const _ _ _ _).1
  · rw [markRemoved, if_pos hpred]
  · exact (markRemoved_const _ _ _ _).2.2.2.1
  · exact (markRemoved_const _ _ _ _).2.2.2.2

/-- C2 amended: in the DataProcessor.upsertAshbyJobs revision, for every
reconciliation cycle with a nonempty incoming list and pairwise-distinct
internal row ids, every existing active record of the company and source
whose external id is absent from the incoming set gets removedAt set to now
(with identity and external id preserved), and the returned removed count
equals the number of such absent-active records. -/
theorem c2_remove_absent_active (db : List JobPosting) (cid b : String)
    (jobs : List AshbyJob) (now nid : Nat) (hne : jobs ≠ []) (hids : idsNodup db) :
    (upsertAshbyJobs db cid b jobs now nid).2.jobsRemoved =
      (db.filter (removalPred cid (jobs.map (fun j => j.id)))).length ∧
    ∀ r ∈ db, removalPred cid (jobs.map (fun j => j.id)) r = true →
      ∃ r2 ∈ (upsertAshbyJobs db cid b jobs now nid).1,
        r2.id = r.id ∧ r2.removedAt = some now ∧ r2.externalId = r.externalId := by
  refine ⟨upsert_removed_count db cid b jobs now nid hne hids, ?_⟩
  intro r hr hpred
  rcases upsert_marks_absent db cid b jobs now nid hne hids r hr hpred with
    ⟨r2, hmem, h1, h2, h3, _⟩
  exact ⟨r2, hmem, h1, h2, h3⟩

/-- Witness for C2: one active record, incoming set with a different external
id: the record is soft-deleted and the removed count is 1. -/
theorem c2_remove_absent_active_witness :
    (upsertAshbyJobs [exampleRowA] "c1" "board" [exampleJobB] 5 10).2.jobsRemoved =
      ([exampleRowA].filter (removalPred "c1" ([exampleJobB].map (fun j => j.id)))).length ∧
    ∀ r ∈ [exampleRowA], removalPred "c1" ([exampleJobB].map (fun j => j.id)) r = true →
      ∃ r2 ∈ (upsertAshbyJobs [exampleRowA] "c1" "board" [exampleJobB] 5 10).1,
        r2.id = r.id ∧ r2.removedAt = some 5 ∧ r2.externalId = r.externalId :=
  c2_remove_absent_active [exampleRowA] "c1" "board" [exampleJobB] 5 10
    (by simp) (by rw [idsNodup]; simp)

/-- C2 counterexample: the claim as stated over every cycle fails on the
empty-incoming cycle: one active record whose external id is absent from the
(empty) incoming set should be removed with count 1, but the cycle returns
removed = 0 and leaves the record untouched. -/
theorem c2_remove_absent_active_counterexample :
    upsertAshbyJobs [exampleRowA] "c1" "board" [] 5 10 = ([exampleRowA], ⟨0, 0, 0⟩) ∧
    removalPred "c1" (([] : List AshbyJob).map (fun j => j.id)) exampleRowA = true :=
  ⟨rfl, rfl⟩

/-- C3 amended: no reconciliation cycle of either revision ever physically
deletes a persisted record: every row survives with its identity, external
id and firstSeenAt intact; in the DataProcessor.upsertAshbyJobs revision a
record that disappears from a nonempty incoming set is soft-deleted by
marking removedAt = now on the still-persisted row, whereas the final
JobProcessingService.syncAshbyJobs revision leaves disappeared rows
unmarked. -/
theorem c3_soft_delete_never_hard_delete (db : List JobPosting) (cid b : String)
    (jobs : List AshbyJob) (now nid : Nat) :
    (∀ r ∈ db, ∃ r2 ∈ (syncAshbyJobs db cid b jobs now nid).1,
        r2.id = r.id ∧ r2.externalId = r.externalId ∧ r2.firstSeenAt = r.firstSeenAt) ∧
    (∀ r ∈ db, ∃ r2 ∈ (upsertAshbyJobs db cid b jobs now nid).1,
        r2.id = r.id ∧ r2.externalId = r.externalId ∧ r2.firstSeenAt = r.firstSeenAt) ∧
    (jobs ≠ [] → idsNodup db →
      ∀ r ∈ db, removalPred cid (jobs.map (fun j => j.id)) r = true →
        ∃ r2 ∈ (upsertAshbyJobs db cid b jobs now nid).1,
          r2.id = r.id ∧ r2.removedAt = some now ∧ r2.firstSeenAt = r.firstSeenAt) := by
  refine ⟨?_, ?_, ?_⟩
  · intro r hr
    by_cases h : jobs = []
    · subst h
      exact ⟨r, hr, rfl, rfl, rfl⟩
    · rw [syncAshbyJobs_eq db cid b jobs now nid h]
      exact ⟨applyUpdatesRow (syncStage db cid jobs now nid).2 r,
        List.mem_map_of_mem _ (List.mem_append_left _ hr),
        (applyUpdatesRow_const _ _).1, (applyUpdatesRow_const _ _).2.2.2.1,
        (applyUpdatesRow_const _ _).2.2.2.2⟩
  · intro r hr
    by_cases h : jobs = []
    · subst h
      exact ⟨r, hr, rfl, rfl, rfl⟩
    · rw [upsertAshbyJobs_eq db cid b jobs now nid h]
      refine ⟨markRemoved cid (jobs.map (fun j => j.id)) now
        (applyUpdatesRow ((upsertStage db cid jobs now nid).2.map
          (fun o => (o.existingId, o.data))) r), ?_, ?_, ?_, ?_⟩
      · apply List.mem_map_of_mem
        rw [upsertWritten]
        exact List.mem_append_left _ (List.mem_map_of_mem _ hr)
      · rw [(markRemoved_const _ _ _ _).1]
        exact (applyUpdatesRow_const _ _).1
      · rw [(markRemoved_const _ _ _ _).2.2.2.1]
        exact (applyUpdatesRow_const _ _).2.2.2.1
      · rw [(markRemoved_const _ _ _ _).2.2.2.2]
        exact (applyUpdatesRow_const _ _).2.2.2.2
  · intro hne hids r hr hpred
    rcases upsert_marks_absent db cid b jobs now nid hne hids r hr hpred with
      ⟨r2, hmem, h1, h2, _, h4⟩
    exact ⟨r2, hmem, h1, h2, h4⟩

/-- Witness for C3 at a concrete state: one active record disappearing from a
nonempty incoming set is soft-deleted in the upsert revision while the row
itself persists in both revisions. -/
theorem c3_soft_delete_never_hard_delete_witness :
    (∀ r ∈ [exampleRowA], ∃ r2 ∈ (syncAshbyJobs [exampleRowA] "c1" "board" [exampleJobB] 5 10).1,
        r2.id = r.id ∧ r2.externalId = r.externalId ∧ r2.firstSeenAt = r.firstSeenAt) ∧
    ∀ r ∈ [exampleRowA], removalPred "c1" ([exampleJobB].map (fun j => j.id)) r = true →
      ∃ r2 ∈ (upsertAshbyJobs [exampleRowA] "c1" "board" [exampleJobB] 5 10).1,
        r2.id = r.id ∧ r2.removedAt = some 5 ∧ r2.firstSeenAt = r.firstSeenAt :=
  ⟨(c3_soft_delete_never_hard_delete [exampleRowA] "c1" "board" [exampleJobB] 5 10).1,
   (c3_soft_delete_never_hard_delete [exampleRowA] "c1" "board" [exampleJobB] 5 10).2.2
     (by simp) (by rw [idsNodup]; simp)⟩

/-- C3 counterexample: in the final JobProcessingService.syncAshbyJobs
revision, a record that disappears from the (nonempty) incoming set is not
soft-deleted: after the cycle the row still has removedAt = null and the
removed count is 0, although the claim requires its removedAt to be marked. -/
theorem c3_soft_delete_counterexample :
    ((syncAshbyJobs [exampleRowA] "c1" "board" [exampleJobB] 7 10).1.find?
        (fun r => r.id == 1)) = some exampleRowA ∧
    (syncAshbyJobs [exampleRowA] "c1" "board" [exampleJobB] 7 10).2.jobsRemoved = 0 ∧
    exampleRowA.removedAt = none ∧ exampleRowA.externalId ∉ [exampleJobB].map (fun j => j.id) := by
  refine ⟨rfl, rfl, rfl, ?_⟩
  decide

/-- C4 counterexample: running the final JobProcessingService.syncAshbyJobs
cycle twice with the same single-record incoming set yields updated = 1 on
the second call, not updated = 0 as the claim requires, because the updated
count includes unchanged surviving records. -/
theorem c4_idempotence_counterexample :
    (syncAshbyJobs (syncAshbyJobs [] "c1" "board" [exampleJobA] 5 10).1
      "c1" "board" [exampleJobA] 6 20).2 = ⟨0, 1, 0⟩ := by
  rfl

/-- Helper: the soft-delete marking never changes the stored fingerprint. -/
theorem markRemoved_hash (cid : String) (seen : List String) (now : Nat) (r : JobPosting) :
    (markRemoved cid seen now r).descriptionHash = r.descriptionHash := by
  rw [markRemoved]
  split <;> rfl

/-- Helper: the soft-delete marking preserves the uniqueness key relation. -/
theorem sameKey_mark_iff (cid : String) (seen : List String) (now : Nat) (x y : JobPosting) :
    sameKey (markRemoved cid seen now x) (markRemoved cid seen now y) ↔ sameKey x y := by
  rw [sameKey, sameKey,
    (markRemoved_const cid seen now x).2.1, (markRemoved_const cid seen now x).2.2.1,
    (markRemoved_const cid seen now x).2.2.2.1,
    (markRemoved_const cid seen now y).2.1, (markRemoved_const cid seen now y).2.2.1,
    (markRemoved_const cid seen now y).2.2.2.1]

/-- Helper: the row-wise update fold preserves the uniqueness key relation. -/
theorem sameKey_apply_iff (ops : List (Nat × JobData)) (x y : JobPosting) :
    sameKey (applyUpdatesRow ops x) (applyUpdatesRow ops y) ↔ sameKey x y := by
  rw [sameKey, sameKey,
    (applyUpdatesRow_const ops x).2.1, (applyUpdatesRow_const ops x).2.2.1,
    (applyUpdatesRow_const ops x).2.2.2.1,
    (applyUpdatesRow_const ops y).2.1, (applyUpdatesRow_const ops y).2.2.1,
    (applyUpdatesRow_const ops y).2.2.2.1]

/-- Helper: the external ids of the upsert-plan create rows are the incoming
ids whose lookup failed, in order. -/
theorem upsertPlan_fst_exts (lookup : String → Option JobSummary) (cid : String) (now : Nat)
    (js : List AshbyJob) (nid : Nat) :
    (upsertPlan lookup cid now js nid).1.map (fun r => r.externalId) =
      (js.filter (fun j => (lookup j.id).isNone)).map (fun j => j.id) := by
  induction js generalizing nid with
  | nil => rfl
  | cons j rest ih =>
    cases h : lookup j.id with
    | some ex =>
      rw [upsertPlan]
      simp only [h, List.filter_cons]
      rw [if_neg (by simp [h])]
      exact ih nid
    | none =>
      rw [upsertPlan]
      simp only [h, List.filter_cons]
      rw [if_pos (by simp [h])]
      simp only [List.map_cons, mkCreateRow_externalId]
      rw [ih (nid + 1)]

/-- Helper: a nonempty-incoming upsert cycle preserves key uniqueness of the
table when the incoming external ids are duplicate-free. -/
theorem upsert_keyUnique (db : List JobPosting) (cid b : String) (jobs : List AshbyJob)
    (now nid : Nat) (hne : jobs ≠ []) (hkey : keyUnique db)
    (hnod : (jobs.map (fun j => j.id)).Nodup) :
    keyUnique (upsertAshbyJobs db cid b jobs now nid).1 := by
  rw [upsertAshbyJobs_eq db cid b jobs now nid hne]
  rw [keyUnique, List.pairwise_map]
  have hwritten : (upsertWritten db cid jobs now nid).Pairwise (fun x y => ¬ sameKey x y) := by
    rw [upsertWritten, List.pairwise_append]
    refine ⟨?_, ?_, ?_⟩
    · rw [List.pairwise_map]
      exact hkey.imp (fun {x y} h => fun hc => h ((sameKey_apply_iff _ x y).1 hc))
    · have hexts : ((upsertStage db cid jobs now nid).1.map (fun r => r.externalId)).Nodup := by
        rw [upsertStage, upsertPlan_fst_exts]
        exact ((List.filter_sublist _).map _).nodup hnod
      rw [List.Nodup, List.pairwise_map] at hexts
      refine hexts.imp_of_mem ?_
      intro c1 c2 h1 h2 hne2 hck
      exact hne2 hck.2.2
    · intro a ha c hc hck
      rcases List.mem_map.1 ha with ⟨r, hr, rfl⟩
      have hc2 : c ∈ (upsertPlan (mapGet (fetchExisting db cid (jobs.map (fun j => j.id))))
          cid now jobs nid).1 := hc
      rcases upsertPlan_fst_mem hc2 with ⟨j, hj, hl, m, _, rfl⟩
      rw [sameKey, (applyUpdatesRow_const _ r).2.1, (applyUpdatesRow_const _ r).2.2.1,
        (applyUpdatesRow_const _ r).2.2.2.1, mkCreateRow_companyId, mkCreateRow_source,
        mkCreateRow_externalId] at hck
      have hsome : (mapGet (fetchExisting db cid (jobs.map (fun j => j.id))) j.id).isSome := by
        rw [mapGet_isSome_iff]
        refine ⟨⟨r.id, r.externalId, r.descriptionHash⟩, ?_, hck.2.2⟩
        exact mem_fetchExisting.2 ⟨r, hr, hck.1, hck.2.1, by
          rw [hck.2.2]; exact List.mem_map.2 ⟨j, hj, rfl⟩, rfl⟩
      rw [hl] at hsome
      cases hsome
  exact hwritten.imp (fun {x y} h => fun hc => h ((sameKey_mark_iff _ _ _ x y).1 hc))

/-- Helper: a nonempty-incoming upsert cycle preserves distinctness of
internal ids when the fresh-id seed exceeds every existing id. -/
theorem upsert_idsNodup (db : List JobPosting) (cid b : String) (jobs : List AshbyJob)
    (now nid : Nat) (hne : jobs ≠ []) (hids : idsNodup db) (hfresh : idsBelow db nid) :
    idsNodup (upsertAshbyJobs db cid b jobs now nid).1 := by
  rw [upsertAshbyJobs_eq db cid b jobs now nid hne]
  rw [idsNodup, List.map_map]
  have h1 : (upsertWritten db cid jobs now nid).map
      ((fun r => r.id) ∘ markRemoved cid (jobs.map (fun j => j.id)) now) =
      (upsertWritten db cid jobs now nid).map (fun r => r.id) :=
    List.map_congr_left (fun x _ => (markRemoved_const _ _ _ x).1)
  rw [h1, upsertWritten, List.map_append, List.map_map]
  have h2 : db.map ((fun r => r.id) ∘ applyUpdatesRow
      ((upsertStage db cid jobs now nid).2.map (fun o => (o.existingId, o.data)))) =
      db.map (fun r => r.id) :=
    List.map_congr_left (fun x _ => (applyUpdatesRow_const _ x).1)
  rw [h2, List.nodup_append]
  refine ⟨hids, ?_, ?_⟩
  · have := upsertPlan_fst_ids_nodup
      (mapGet (fetchExisting db cid (jobs.map (fun j => j.id)))) cid now jobs nid
    exact this
  · intro a ha hb
    rcases List.mem_map.1 ha with ⟨r, hr, rfl⟩
    rcases List.mem_map.1 hb with ⟨c, hc, hid⟩
    have hc2 : c ∈ (upsertPlan (mapGet (fetchExisting db cid (jobs.map (fun j => j.id))))
        cid now jobs nid).1 := hc
    rcases upsertPlan_fst_mem hc2 with ⟨j, _, _, m, hm, rfl⟩
    rw [mkCreateRow_id] at hid
    have := hfresh r hr
    omega

/-- Helper: after a nonempty-incoming upsert cycle, every active row of the
company and source has its external id among the incoming ids. -/
theorem upsert_active_seen (db : List JobPosting) (cid b : String) (jobs : List AshbyJob)
    (now nid : Nat) (hne : jobs ≠ []) :
    ∀ r2 ∈ (upsertAshbyJobs db cid b jobs now nid).1,
      r2.companyId = cid → r2.source = "ashby" → r2.removedAt = none →
        r2.externalId ∈ jobs.map (fun j => j.id) := by
  rw [upsertAshbyJobs_eq db cid b jobs now nid hne]
  intro r2 hr2 h1 h2 h3
  rcases List.mem_map.1 hr2 with ⟨x, _, rfl⟩
  by_cases hpred : removalPred cid (jobs.map (fun j => j.id)) x = true
  · rw [markRemoved, if_pos hpred] at h3
    cases h3
  · rw [markRemoved, if_neg hpred] at h1 h2 h3 ⊢
    by_contra hmem
    apply hpred
    rw [removalPred]
    simp [h1, h2, h3, List.elem_iff, hmem]

/-- Helper: after a nonempty-incoming upsert cycle over a key-unique table
with distinct row ids and duplicate-free incoming ids, every incoming record
has a surviving row of its key carrying exactly its fresh fingerprint. -/
theorem upsert_survivor_row (db : List JobPosting) (cid b : String) (jobs : List AshbyJob)
    (now nid : Nat) (hne : jobs ≠ []) (hkey : keyUnique db) (hids : idsNodup db)
    (hnod : (jobs.map (fun j => j.id)).Nodup) :
    ∀ j ∈ jobs, ∃ r2 ∈ (upsertAshbyJobs db cid b jobs now nid).1,
      r2.companyId = cid ∧ r2.source = "ashby" ∧ r2.externalId = j.id ∧
      r2.descriptionHash = (mkJobData j now).descriptionHash := by
  intro j hj
  rw [upsertAshbyJobs_eq db cid b jobs now nid hne]
  have hjid : j.id ∈ jobs.map (fun x => x.id) := List.mem_map.2 ⟨j, hj, rfl⟩
  cases hl : mapGet (fetchExisting db cid (jobs.map (fun x => x.id))) j.id with
  | none =>
    rcases @upsertPlan_fst_covers (mapGet (fetchExisting db cid (jobs.map (fun x => x.id))))
      cid now jobs nid j hj hl with ⟨m, hm⟩
    have hm2 : mkCreateRow cid j now m ∈ (upsertStage db cid jobs now nid).1 := hm
    refine ⟨markRemoved cid (jobs.map (fun x => x.id)) now (mkCreateRow cid j now m), ?_, ?_⟩
    · exact List.mem_map_of_mem _ (by
        rw [upsertWritten]
        exact List.mem_append_right _ hm2)
    · have hnr : removalPred cid (jobs.map (fun x => x.id)) (mkCreateRow cid j now m) = false :=
        upsert_creates_not_removed hm2
      rw [markRemoved, if_neg (by rw [hnr]; exact Bool.false_ne_true)]
      exact ⟨mkCreateRow_companyId cid j now m, mkCreateRow_source cid j now m,
        mkCreateRow_externalId cid j now m, mkCreateRow_hash cid j now m⟩
  | some ex =>
    rcases mapGet_eq_some_mem hl with ⟨hex, hexk⟩
    rcases mem_fetchExisting.1 hex with ⟨w, hw, hw1, hw2, _, hexeq⟩
    subst hexeq
    have hwext : w.externalId = j.id := hexk
    have hallhash : ∀ op ∈ (upsertStage db cid jobs now nid).2.map
        (fun o => (o.existingId, o.data)),
        op.1 = w.id → (op.2).descriptionHash = (mkJobData j now).descriptionHash := by
      intro op hop hid
      rcases List.mem_map.1 hop with ⟨o, ho, rfl⟩
      have ho2 : o ∈ (upsertPlan (mapGet (fetchExisting db cid (jobs.map (fun x => x.id))))
          cid now jobs nid).2 := ho
      rw [upsertPlan_snd] at ho2
      rcases List.mem_filterMap.1 ho2 with ⟨j2, hj2, hf⟩
      cases hl2 : mapGet (fetchExisting db cid (jobs.map (fun x => x.id))) j2.id with
      | none => rw [hl2] at hf; cases hf
      | some ex2 =>
        rw [hl2] at hf
        cases hf
        rcases mapGet_eq_some_mem hl2 with ⟨hex2, hex2k⟩
        rcases mem_fetchExisting.1 hex2 with ⟨w2, hw2m, _, _, _, hexeq2⟩
        subst hexeq2
        have hww : w2 = w := List.inj_on_of_nodup_map hids hw2m hw hid
        have hjj : j2 = j := by
          refine List.inj_on_of_nodup_map hnod hj2 hj ?_
          show j2.id = j.id
          rw [← hex2k, hww, hwext]
        subst hjj
        rfl
    have hhit : ∃ op ∈ (upsertStage db cid jobs now nid).2.map
        (fun o => (o.existingId, o.data)), op.1 = w.id := by
      refine ⟨(w.id, mkJobData j now), ?_, rfl⟩
      refine List.mem_map.2 ⟨⟨w.id, mkJobData j now,
        w.descriptionHash != (mkJobData j now).descriptionHash⟩, ?_, rfl⟩
      have : (⟨w.id, mkJobData j now,
          w.descriptionHash != (mkJobData j now).descriptionHash⟩ : UpdateOp) ∈
          (upsertPlan (mapGet (fetchExisting db cid (jobs.map (fun x => x.id))))
            cid now jobs nid).2 := by
        rw [upsertPlan_snd]
        exact List.mem_filterMap.2 ⟨j, hj, by rw [hl]; rfl⟩
      exact this
    have hres := applyUpdatesRow_hash hallhash hhit
    refine ⟨markRemoved cid (jobs.map (fun x => x.id)) now
      (applyUpdatesRow ((upsertStage db cid jobs now nid).2.map
        (fun o => (o.existingId, o.data))) w), ?_, ?_, ?_, ?_, ?_⟩
    · exact List.mem_map_of_mem _ (by
        rw [upsertWritten]
        exact List.mem_append_left _ (List.mem_map_of_mem _ hw))
    · rw [(markRemoved_const _ _ _ _).2.1, (applyUpdatesRow_const _ _).2.1]
      exact hw1
    · rw [(markRemoved_const _ _ _ _).2.2.1, (applyUpdatesRow_const _ _).2.2.1]
      exact hw2
    · rw [(markRemoved_const _ _ _ _).2.2.2.1, (applyUpdatesRow_const _ _).2.2.2.1]
      exact hwext
    · rw [markRemoved_hash]
      exact hres.1

/-- C4 amended: in the DataProcessor.upsertAshbyJobs revision, which counts
only changed rows as updated and soft-deletes by marking removedAt, running
the cycle twice in a row with the same incoming set yields created = 0,
updated = 0 and removed = 0 on the second call, for every starting table
with unique keys, distinct row ids below the fresh-id seed, and
duplicate-free incoming external ids; the final
JobProcessingService.syncAshbyJobs revision instead reports every surviving
record as updated on the second call. -/
theorem c4_upsert_idempotent (db : List JobPosting) (cid b : String) (jobs : List AshbyJob)
    (now1 now2 nid1 nid2 : Nat) (hkey : keyUnique db) (hids : idsNodup db)
    (hfresh : idsBelow db nid1) (hnod : (jobs.map (fun j => j.id)).Nodup) :
    (upsertAshbyJobs (upsertAshbyJobs db cid b jobs now1 nid1).1 cid b jobs now2 nid2).2 =
      ⟨0, 0, 0⟩ := by
  by_cases hne : jobs = []
  · subst hne
    rfl
  · have hkey1 := upsert_keyUnique db cid b jobs now1 nid1 hne hkey hnod
    have hids1 := upsert_idsNodup db cid b jobs now1 nid1 hne hids hfresh
    have hP3 := upsert_survivor_row db cid b jobs now1 nid1 hne hkey hids hnod
    have hP4 := upsert_active_seen db cid b jobs now1 nid1 hne
    set s1 := (upsertAshbyJobs db cid b jobs now1 nid1).1 with hs1
    have hsome : ∀ j ∈ jobs,
        (mapGet (fetchExisting s1 cid (jobs.map (fun x => x.id))) j.id).isSome = true := by
      intro j hj
      rcases hP3 j hj with ⟨r2, hr2, k1, k2, k3, _⟩
      rw [mapGet_isSome_iff]
      exact ⟨⟨r2.id, r2.externalId, r2.descriptionHash⟩,
        mem_fetchExisting.2 ⟨r2, hr2, k1, k2, by
          rw [k3]; exact List.mem_map.2 ⟨j, hj, rfl⟩, rfl⟩, k3⟩
    have hNew : (upsertStage s1 cid jobs now2 nid2).1.length = 0 := by
      have hnil : (upsertStage s1 cid jobs now2 nid2).1 = [] := upsertPlan_fst_eq_nil hsome
      rw [hnil]
      rfl
    have hUpd : ((upsertStage s1 cid jobs now2 nid2).2.filter (fun o => o.changed)).length
        = 0 := by
      rw [List.length_eq_zero, List.filter_eq_nil_iff]
      intro o ho
      have ho2 : o ∈ (upsertPlan (mapGet (fetchExisting s1 cid (jobs.map (fun x => x.id))))
          cid now2 jobs nid2).2 := ho
      rw [upsertPlan_snd] at ho2
      rcases List.mem_filterMap.1 ho2 with ⟨j, hj, hf⟩
      rcases hP3 j hj with ⟨r2, hr2, k1, k2, k3, k4⟩
      have hlook := mapGet_fetch_eq hkey1 r2 hr2 k1 k2 k3 (List.mem_map.2 ⟨j, hj, rfl⟩)
      rw [hlook] at hf
      cases hf
      show ¬((r2.descriptionHash != (mkJobData j now2).descriptionHash) = true)
      rw [k4, mkJobData_hash j now1 now2, bne_self_eq_false]
      exact Bool.false_ne_true
    have hRem : ((upsertWritten s1 cid jobs now2 nid2).filter
        (removalPred cid (jobs.map (fun j => j.id)))).length = 0 := by
      rw [List.length_eq_zero, List.filter_eq_nil_iff]
      intro x hx hpred
      rw [upsertWritten] at hx
      rcases List.mem_append.1 hx with hx1 | hx2
      · rcases List.mem_map.1 hx1 with ⟨r, hrs1, rfl⟩
        by_cases htouch : ∃ op ∈ (upsertStage s1 cid jobs now2 nid2).2.map
            (fun o => (o.existingId, o.data)), op.1 = r.id
        · rcases htouch with ⟨op, hop, hopid⟩
          rcases upsert_ops_target hop with ⟨w, hws1, hwid, _, _, hwext⟩
          have hwr : w = r := List.inj_on_of_nodup_map hids1 hws1 hrs1 (by rw [hwid, hopid])
          subst hwr
          rw [removalPred] at hpred
          have hcont : ((jobs.map (fun j => j.id)).contains
              (applyUpdatesRow ((upsertStage s1 cid jobs now2 nid2).2.map
                (fun o => (o.existingId, o.data))) w).externalId) = true := by
            rw [(applyUpdatesRow_const _ w).2.2.2.1]
            simp [List.elem_iff, hwext]
          rw [hcont] at hpred
          simp at hpred
        · push_neg at htouch
          rw [applyUpdatesRow_untouched htouch] at hpred
          rw [removalPred] at hpred
          simp only [Bool.and_eq_true, Bool.not_eq_true', beq_iff_eq] at hpred
          rcases hpred with ⟨⟨⟨p1, p2⟩, p3⟩, p4⟩
          have hmem := hP4 r hrs1 p1 p2 p3
          have hcont2 : ((jobs.map (fun j => j.id)).contains r.externalId) = true := by
            simp [List.elem_iff, hmem]
          rw [hcont2] at p4
          cases p4
      · rw [upsert_creates_not_removed hx2] at hpred
        cases hpred
    rw [upsertAshbyJobs_eq s1 cid b jobs now2 nid2 hne]
    show (⟨(upsertStage s1 cid jobs now2 nid2).1.length,
      ((upsertStage s1 cid jobs now2 nid2).2.filter (fun o => o.changed)).length,
      ((upsertWritten s1 cid jobs now2 nid2).filter
        (removalPred cid (jobs.map (fun j => j.id)))).length⟩ : SyncCounts) = ⟨0, 0, 0⟩
    rw [hNew, hUpd, hRem]

/-- Witness for C4 at a concrete state: one active record of a different
external id, incoming set of one record, run twice: the second call reports
all zero counts. -/
theorem c4_upsert_idempotent_witness :
    (upsertAshbyJobs (upsertAshbyJobs [exampleRowA] "c1" "board" [exampleJobB] 5 10).1
      "c1" "board" [exampleJobB] 6 20).2 = ⟨0, 0, 0⟩ :=
  c4_upsert_idempotent [exampleRowA] "c1" "board" [exampleJobB] 5 6 10 20
    (List.pairwise_singleton _ _) (by rw [idsNodup]; simp)
    (by
      intro r hr
      rw [List.mem_singleton] at hr
      subst hr
      decide)
    (by simp)

/-- C7 amended: a reconciliation cycle appends exactly one run record row,
with status completed, only when it validates the company and finds a
nonempty incoming list; a cycle that finds zero incoming records appends no
row at all, and every row ever appended has status completed (no
failed-status row is ever written). -/
theorem c7_run_record_only_on_success (db : DbState) (slug : String)
    (jobs : List AshbyJob) (t now nid : Nat) (c : Company) (board : String)
    (hslug : slug ≠ "") (hc : findCompanyBySlug db.companies slug = some c)
    (hb : c.ashbyBoardName = some board) :
    (jobs = [] → (ashbyELTRun db slug jobs t now nid).1.scrapingRuns = db.scrapingRuns) ∧
    (jobs ≠ [] → (ashbyELTRun db slug jobs t now nid).1.scrapingRuns =
      db.scrapingRuns ++ [⟨c.id, slug, "ashby", "completed", jobs.length,
        (syncAshbyJobs db.jobPostings c.id board jobs now nid).2.jobsNew,
        (syncAshbyJobs db.jobPostings c.id board jobs now nid).2.jobsUpdated,
        (syncAshbyJobs db.jobPostings c.id board jobs now nid).2.jobsRemoved, t, now⟩]) ∧
    (∀ run ∈ (ashbyELTRun db slug jobs t now nid).1.scrapingRuns,
      run ∈ db.scrapingRuns ∨ run.status = "completed") := by
  by_cases hj : jobs = []
  · subst hj
    have hres : ashbyELTRun db slug [] t now nid = (db, .ok ⟨0, 0, 0, 0⟩) := by
      simp [ashbyELTRun, if_neg hslug, hc, hb]
    rw [hres]
    exact ⟨fun _ => rfl, fun hne => absurd rfl hne, fun run hrun => Or.inl hrun⟩
  · have hEmpty : jobs.isEmpty = false := by
      cases jobs with
      | nil => exact absurd rfl hj
      | cons a l => rfl
    have hres : ashbyELTRun db slug jobs t now nid =
        ({ db with
            jobPostings := (syncAshbyJobs db.jobPostings c.id board jobs now nid).1,
            scrapingRuns := db.scrapingRuns ++ [⟨c.id, slug, "ashby", "completed",
              jobs.length,
              (syncAshbyJobs db.jobPostings c.id board jobs now nid).2.jobsNew,
              (syncAshbyJobs db.jobPostings c.id board jobs now nid).2.jobsUpdated,
              (syncAshbyJobs db.jobPostings c.id board jobs now nid).2.jobsRemoved,
              t, now⟩] },
          .ok ⟨jobs.length,
            (syncAshbyJobs db.jobPostings c.id board jobs now nid).2.jobsNew,
            (syncAshbyJobs db.jobPostings c.id board jobs now nid).2.jobsUpdated,
            (syncAshbyJobs db.jobPostings c.id board jobs now nid).2.jobsRemoved⟩) := by
      simp [ashbyELTRun, if_neg hslug, hc, hb, hEmpty]
    rw [hres]
    refine ⟨fun he => absurd he hj, fun _ => rfl, ?_⟩
    intro run hrun
    have hrun2 : run ∈ db.scrapingRuns ++ [(⟨c.id, slug, "ashby", "completed", jobs.length,
        (syncAshbyJobs db.jobPostings c.id board jobs now nid).2.jobsNew,
        (syncAshbyJobs db.jobPostings c.id board jobs now nid).2.jobsUpdated,
        (syncAshbyJobs db.jobPostings c.id board jobs now nid).2.jobsRemoved,
        t, now⟩ : ScrapingRun)] := hrun
    rcases List.mem_append.1 hrun2 with h | h
    · exact Or.inl h
    · right
      rw [List.mem_singleton] at h
      subst h
      rfl

/-- Witness for C7: a cycle over the concrete database that finds zero
incoming records leaves the run table unchanged. -/
theorem c7_run_record_only_on_success_witness :
    (ashbyELTRun exampleDb "acme" [] 3 5 0).1.scrapingRuns = exampleDb.scrapingRuns :=
  (c7_run_record_only_on_success exampleDb "acme" [] 3 5 0 exampleCompany "acme-board"
    (by decide) rfl rfl).1 rfl

/-- C7 counterexample: a cycle that validates its company and completes
normally with zero incoming records appends no run record row at all,
although the claim requires exactly one row per cycle regardless of
outcome. -/
theorem c7_run_record_counterexample :
    (ashbyELTRun exampleDb "acme" [] 3 5 0).1.scrapingRuns = [] ∧
    (ashbyELTRun exampleDb "acme" [] 3 5 0).2 = .ok ⟨0, 0, 0, 0⟩ :=
  ⟨rfl, rfl⟩

/-- C10: when the supplied company identifier does not resolve, or the
company has no Ashby board name configured, the pipeline entry point fails
with an error and the persisted state is completely unchanged: no posting
write and no run-record insert happens. -/
theorem c10_validation_failure_leaves_state (db : DbState) (slug : String)
    (jobs : List AshbyJob) (t now nid : Nat)
    (h : findCompanyBySlug db.companies slug = none ∨
      ∃ c, findCompanyBySlug db.companies slug = some c ∧ c.ashbyBoardName = none) :
    (ashbyELTRun db slug jobs t now nid).1 = db ∧
    ∃ e, (ashbyELTRun db slug jobs t now nid).2 = .error e := by
  by_cases hs : slug = ""
  · subst hs
    exact ⟨rfl, "Company slug is required", rfl⟩
  · rcases h with h | ⟨c, hc, hb⟩
    · have hres : ashbyELTRun db slug jobs t now nid =
          (db, .error ("Company " ++ slug ++ " not found")) := by
        simp [ashbyELTRun, if_neg hs, h]
      rw [hres]
      exact ⟨rfl, ⟨"Company " ++ slug ++ " not found", rfl⟩⟩
    · have hres : ashbyELTRun db slug jobs t now nid =
          (db, .error ("Company " ++ slug ++ " does not have an Ashby board name")) := by
        simp [ashbyELTRun, if_neg hs, hc, hb]
      rw [hres]
      exact ⟨rfl, ⟨"Company " ++ slug ++ " does not have an Ashby board name", rfl⟩⟩

/-- Witness for C10: an unknown slug over the empty database fails and leaves
the database unchanged. -/
theorem c10_validation_failure_witness :
    (ashbyELTRun ⟨[], [], []⟩ "ghost" [exampleJobA] 1 2 3).1 = ⟨[], [], []⟩ ∧
    ∃ e, (ashbyELTRun ⟨[], [], []⟩ "ghost" [exampleJobA] 1 2 3).2 = .error e :=
  c10_validation_failure_leaves_state ⟨[], [], []⟩ "ghost" [exampleJobA] 1 2 3 (Or.inl rfl)

end CompanyHealth
